import Mathlib

/-!
Verification of the two scripts of this repository:
`src/ios/scripts/fix-test-target.py` (the Xcode project-manifest patcher) and
`src/scraper.py` (the dungeon scraper).

Texts are modelled as `List Char` (Python `str`).  Python's substring test
(`sub in s`), `str.find`, and the two `re.search` patterns used by the patcher
are modelled by executable functions below, and the two scripts' operations are
shallowly embedded on top of them.  Randomness (`uuid.uuid4`) and the file
system are modelled as parameters: the minted identifiers are explicit
arguments, the file system is an existence predicate plus the manifest's
optional content.
-/

namespace Healer

/-- Does `pat` match at the head of `t`?  (Helper for Python substring search.) -/
def headMatch : List Char → List Char → Bool
  | [], _ => true
  | _ :: _, [] => false
  | a :: as, b :: bs => a == b && headMatch as bs

/-- Python's `pat in t` substring containment on texts. -/
def inText (pat : List Char) : List Char → Bool
  | [] => headMatch pat []
  | c :: cs => headMatch pat (c :: cs) || inText pat cs

/-- Python's `t.find(pat)`: index of the first occurrence, `none` for `-1`. -/
def findSub (pat : List Char) : List Char → Option Nat
  | [] => if headMatch pat [] then some 0 else none
  | c :: cs => if headMatch pat (c :: cs) then some 0 else (findSub pat cs).map (· + 1)

/-- Length of the maximal initial run of characters different from `bad`
(models the greedy `[^X]+` regex pieces). -/
def runLen (bad : Char) : List Char → Nat
  | [] => 0
  | c :: cs => if c == bad then 0 else runLen bad cs + 1

/-- Occurrence of `pat` in `t` starting at position `p`. -/
def OccursAt (pat t : List Char) (p : Nat) : Prop :=
  ∃ u v, t = u ++ pat ++ v ∧ u.length = p

/-- The character `\x7d` (closing brace). -/
def rbraceC : Char := Char.ofNat 125

/-- The character `)` (closing parenthesis). -/
def rparenC : Char := Char.ofNat 41

/-- The character `(` (opening parenthesis). -/
def lparenC : Char := Char.ofNat 40

/-!  ### Embedding of `src/ios/scripts/fix-test-target.py`

The script's textual markers, the entry strings it constructs, the two
`re.search`-based section checks, the build-phase regex (with Python's
leftmost-then-greedy semantics), and the insertion logic of
`add_file_to_project` and `main`.  The two identifiers minted by
`generate_uuid()` per call are passed in as explicit arguments. -/

/-- Marker `/* Begin PBXBuildFile section */`. -/
def beginBFLit : List Char := ("/* Begin PBXBuildFile section */".data)

/-- Marker `/* End PBXBuildFile section */`. -/
def endBFLit : List Char := ("/* End PBXBuildFile section */".data)

/-- Marker `/* Begin PBXFileReference section */`. -/
def beginFRLit : List Char := ("/* Begin PBXFileReference section */".data)

/-- Marker `/* End PBXFileReference section */`. -/
def endFRLit : List Char := ("/* End PBXFileReference section */".data)

/-- The literal head of the build-phase regex
`A194BCD52E7873C400DC3B4F /* Sources */ = {`. -/
def sourcesKeyLit : List Char := ("A194BCD52E7873C400DC3B4F /* Sources */ = \x7b".data)

/-- The literal `files = (` inside the build-phase regex. -/
def filesLit : List Char := ("files = (".data)

/-- The `PBXBuildFile` entry text constructed by `add_file_to_project`. -/
def build_file_entry (build_file_id file_ref_id file_name : List Char) : List Char :=
  ("\t\t".data) ++ build_file_id ++ (" /* ".data) ++ file_name ++
    (" in Sources */ = \x7bisa = PBXBuildFile; fileRef = ".data) ++ file_ref_id ++
    (" /* ".data) ++ file_name ++ (" */; \x7d;".data)

/-- The `PBXFileReference` entry text constructed by `add_file_to_project`. -/
def file_ref_entry (file_ref_id file_name : List Char) : List Char :=
  ("\t\t".data) ++ file_ref_id ++ (" /* ".data) ++ file_name ++
    (" */ = \x7bisa = PBXFileReference; lastKnownFileType = sourcecode.swift; path = ".data) ++
    file_name ++ ("; sourceTree = \"<group>\"; \x7d;".data)

/-- The build-phase file-list reference text constructed by `add_file_to_project`. -/
def build_file_ref (build_file_id file_name : List Char) : List Char :=
  ("\t\t\t\t".data) ++ build_file_id ++ (" /* ".data) ++ file_name ++
    (" in Sources */,".data)

/-- Truthiness of `re.search(begin + '(.*?)' + end, content, re.DOTALL)`: some
occurrence of `bM` is followed (at or after its end) by an occurrence of `eM`. -/
def hasSection (bM eM : List Char) : List Char → Bool
  | [] => headMatch bM [] && inText eM (List.drop bM.length [])
  | c :: cs =>
    (headMatch bM (c :: cs) && inText eM (List.drop bM.length (c :: cs))) ||
      hasSection bM eM cs

/-- Backtracking loop for the `[^}]+files = \([^)]+` part of the build-phase
regex: try the greedy (longest) `[^}]+` length first, then shorter ones. -/
def phaseTailAux : Nat → List Char → Option Nat
  | 0, _ => none
  | j + 1, rest =>
    if headMatch filesLit (rest.drop (j + 1)) then
      if 1 ≤ runLen rparenC (rest.drop (j + 1 + filesLit.length)) then
        some (j + 1 + filesLit.length + runLen rparenC (rest.drop (j + 1 + filesLit.length)))
      else phaseTailAux j rest
    else phaseTailAux j rest

/-- Length matched by `[^}]+files = \([^)]+` at the start of `rest`. -/
def phaseTail (rest : List Char) : Option Nat :=
  phaseTailAux (runLen rbraceC rest) rest

/-- Leftmost-match scan for the build-phase regex; returns
`(match.start(), match.end())`. -/
def phaseScan : List Char → Nat → Option (Nat × Nat)
  | [], _ => none
  | c :: cs, p =>
    if headMatch sourcesKeyLit (c :: cs) then
      match phaseTail ((c :: cs).drop sourcesKeyLit.length) with
      | some t => some (p, p + sourcesKeyLit.length + t)
      | none => phaseScan cs (p + 1)
    else phaseScan cs (p + 1)

/-- `re.search` for the build-phase pattern of the script. -/
def phaseSearch (content : List Char) : Option (Nat × Nat) := phaseScan content 0

/-- Python slice-insertion `content[:i] + block + content[i:]`. -/
def insertAt (i : Nat) (block content : List Char) : List Char :=
  content.take i ++ block ++ content.drop i

/-- Position used for the `PBXBuildFile` insertion: `content.find(end marker)`;
`find` returning `-1` makes the Python slices `content[:-1]`/`content[-1:]`. -/
def bfInsertPos (content : List Char) : Nat :=
  match findSub endBFLit content with
  | some p => p
  | none => content.length - 1

/-- Position used for the `PBXFileReference` insertion. -/
def frInsertPos (content : List Char) : Nat :=
  match findSub endFRLit content with
  | some p => p
  | none => content.length - 1

/-- The `PBXBuildFile`-section block of `add_file_to_project`. -/
def bfStep (build_file_id file_ref_id file_name content : List Char) : List Char :=
  if hasSection beginBFLit endBFLit content then
    insertAt (bfInsertPos content)
      (build_file_entry build_file_id file_ref_id file_name ++ ['\n']) content
  else content

/-- The `PBXFileReference`-section block of `add_file_to_project`. -/
def frStep (file_ref_id file_name content : List Char) : List Char :=
  if hasSection beginFRLit endFRLit content then
    insertAt (frInsertPos content) (file_ref_entry file_ref_id file_name ++ ['\n']) content
  else content

/-- The build-phase block of `add_file_to_project`. -/
def phaseStep (build_file_id file_name content : List Char) : List Char :=
  match phaseSearch content with
  | some pe => insertAt pe.2 ('\n' :: build_file_ref build_file_id file_name) content
  | none => content

/-- `add_file_to_project(content, file_path, file_name)` with the two minted
identifiers passed explicitly (`file_ref_id` first, as `generate_uuid` is
called for the file reference first). -/
def add_file_to_project (file_ref_id build_file_id content filePath file_name :
    List Char) : List Char :=
  phaseStep build_file_id file_name
    (frStep file_ref_id file_name
      (bfStep build_file_id file_ref_id file_name content))

/-- The literal file list of `main()`. -/
def test_files : List (List Char × List Char) :=
  [(("DungeonKitTests/ModelTests/DungeonTests.swift".data), ("DungeonTests.swift".data)),
   (("DungeonKitTests/ModelTests/BossEncounterTests.swift".data),
     ("BossEncounterTests.swift".data)),
   (("DungeonKitTests/ModelTests/SeasonTests.swift".data), ("SeasonTests.swift".data))]

/-- Result of a patcher run: the content written back (if any), the file paths
warned about as missing, and whether the fatal manifest-missing error fired. -/
structure MainOut where
  written : Option (List Char)
  warned : List (List Char)
  errored : Bool
deriving DecidableEq

/-- The per-file loop of `main()`: existence check, duplicate check, edit.
`k` counts `add_file_to_project` calls so far (each consumes one identifier
pair from `ids`); returns the final content and the warned paths in order. -/
def mainLoop (onDisk : List Char → Bool) (ids : Nat → List Char × List Char) :
    List (List Char × List Char) → List Char → Nat → List Char × List (List Char)
  | [], content, _ => (content, [])
  | (fp, fn) :: rest, content, k =>
    if onDisk fp then
      if inText fn content then mainLoop onDisk ids rest content k
      else
        mainLoop onDisk ids rest
          (add_file_to_project (ids k).1 (ids k).2 content fp fn) (k + 1)
    else
      let r := mainLoop onDisk ids rest content k
      (r.1, fp :: r.2)

/-- `main()`: aborts with a printed error if the manifest file is missing,
otherwise runs the loop over `test_files` and writes the result back. -/
def main (manifest : Option (List Char)) (onDisk : List Char → Bool)
    (ids : Nat → List Char × List Char) : MainOut :=
  match manifest with
  | none => ⟨none, [], true⟩
  | some content =>
    let r := mainLoop onDisk ids test_files content 0
    ⟨some r.1, r.2, false⟩

/-!  ### Embedding of `src/scraper.py`

A fetch of a URL either raises (navigation failure, timeout, …) or yields the
rendered page: its HTML text and the anchors matching the CSS selector
`a[href*="dungeon"]` in document order (each with visible text and `href`).
`scrape_wow_content` walks the three hard-coded sources with this fetch
oracle; it returns the final dict and the list of URLs navigated to. -/

/-- An anchor element: visible text and `href` attribute. -/
structure Anchor where
  text : String
  href : String
deriving DecidableEq

/-- A value of the scraper's dict: `{'url': href, 'source': url}`. -/
structure DungeonRecord where
  url : String
  source : String
deriving DecidableEq

/-- The scraper's `dungeons_data` dict: insertion-ordered association list. -/
abbrev Dict := List (String × DungeonRecord)

/-- Python dict assignment `d[k] = v`: replace in place or append. -/
def dictInsert : Dict → String → DungeonRecord → Dict
  | [], k, v => [(k, v)]
  | (k', v') :: rest, k, v =>
    if k' == k then (k', v) :: rest else (k', v') :: dictInsert rest k v

/-- Python dict lookup `d.get(k)`. -/
def lookupDict : Dict → String → Option DungeonRecord
  | [], _ => none
  | (k', v) :: rest, k => if k' == k then some v else lookupDict rest k

/-- The six fixed dungeon-name fragments of the scraper. -/
def nameFragments : List String :=
  ["Ara-Kara", "Dawnbreaker", "Eco-Dome", "Operation", "Priory", "Tazavesh"]

/-- `any(name in text for name in [...])`. -/
def qualifiesText (t : String) : Bool :=
  nameFragments.any (fun f => inText f.data t.data)

/-- Does the anchor match the selector `a[href*="dungeon"]`? -/
def hrefMatch (a : Anchor) : Bool := inText ("dungeon".data) a.href.data

/-- `'War Within' in content or 'Season 3' in content`. -/
def markersPresent (content : String) : Bool :=
  inText ("War Within".data) content.data || inText ("Season 3".data) content.data

/-- `dungeon_links[:5]` over the selector matches. -/
def pageSelect (anchors : List Anchor) : List Anchor :=
  (anchors.filter hrefMatch).take 5

/-- One iteration of the anchor loop: record a qualifying anchor. -/
def recordStep (url : String) (d : Dict) (a : Anchor) : Dict :=
  if qualifiesText a.text then dictInsert d a.text ⟨a.href, url⟩ else d

/-- The anchor loop over the (at most five) selected links. -/
def recordAnchors (url : String) (links : List Anchor) (d : Dict) : Dict :=
  links.foldl (recordStep url) d

/-- Processing of one fetched page: if a season marker is present, record the
qualifying anchors and report that the loop breaks; otherwise leave the dict
unchanged and continue. -/
def processUrl (url content : String) (anchors : List Anchor) (d : Dict) :
    Dict × Bool :=
  if markersPresent content then (recordAnchors url (pageSelect anchors) d, true)
  else (d, false)

/-- Outcome of navigating to one URL. -/
inductive FetchResult where
  | fetchError : FetchResult
  | page (content : String) (anchors : List Anchor) : FetchResult
deriving DecidableEq

/-- First hard-coded source URL. -/
def URL1 : String := "https://www.wowhead.com/guides/dungeons"

/-- Second hard-coded source URL. -/
def URL2 : String := "https://www.icy-veins.com/wow/"

/-- Third hard-coded source URL. -/
def URL3 : String := "https://wowpedia.fandom.com/wiki/Dungeon"

/-- The scraper's hard-coded source list, in order. -/
def sources : List String := [URL1, URL2, URL3]

/-- The scraper's URL loop: on a fetch error, log and continue; on a page,
process it and stop if the marker check fired (`break`). -/
def scrapeGo (fetch : String → FetchResult) :
    List String → Dict → Dict × List String
  | [], data => (data, [])
  | url :: rest, data =>
    match fetch url with
    | .fetchError =>
      let r := scrapeGo fetch rest data
      (r.1, url :: r.2)
    | .page content anchors =>
      let pr := processUrl url content anchors data
      if pr.2 then (pr.1, [url])
      else
        let r := scrapeGo fetch rest pr.1
        (r.1, url :: r.2)

/-- `scrape_wow_content()` as a function of the fetch oracle: the returned
dict together with the URLs navigated to. -/
def scrape_wow_content (fetch : String → FetchResult) : Dict × List String :=
  scrapeGo fetch sources []

/-- The mapping returned by the scraper. -/
def scrapeData (fetch : String → FetchResult) : Dict :=
  (scrape_wow_content fetch).1

/-- The URLs the scraper navigated to, in order. -/
def scrapeTried (fetch : String → FetchResult) : List String :=
  (scrape_wow_content fetch).2

/-- Does this fetch outcome make the loop `break`?  (Exactly when the page was
retrieved and contains a season marker.) -/
def stopper : FetchResult → Bool
  | .fetchError => false
  | .page content _ => markersPresent content

/-- Number of qualifying anchor records a fetch outcome yields. -/
def yieldCount : FetchResult → Nat
  | .fetchError => 0
  | .page content anchors =>
    if markersPresent content then
      ((pageSelect anchors).filter (fun a => qualifiesText a.text)).length
    else 0

/-!  ### A well-formed manifest shape

`ManifestShape` names the segments of a manifest around the patcher's three
insertion points: `text` is
`s0 ++ Begin-BF ++ s1 ++ End-BF ++ s2 ++ Begin-FR ++ s3 ++ End-FR ++ s4 ++
key ++ M ++ "files = (" ++ R ++ ")" ++ s5`.
`Ok` pins the markers down as the ones the script's `find`/`re.search` hit:
the End markers and the phase key occur first at their structural positions,
the `[^}]+` chunk `M` is nonempty and brace-free, the file-list run `R` is
nonempty and free of parentheses and braces, and the brace-free window after
the closing parenthesis contains no `(` (so the greedy backtracking picks the
structural `files = (`). -/

/-- Decomposition of a manifest around the patcher's three insertion points. -/
structure ManifestShape where
  s0 : List Char
  s1 : List Char
  s2 : List Char
  s3 : List Char
  s4 : List Char
  M : List Char
  R : List Char
  s5 : List Char

/-- The manifest text of a shape. -/
def ManifestShape.text (sh : ManifestShape) : List Char :=
  sh.s0 ++ beginBFLit ++ sh.s1 ++ endBFLit ++ sh.s2 ++ beginFRLit ++ sh.s3 ++
    endFRLit ++ sh.s4 ++ sourcesKeyLit ++ sh.M ++ filesLit ++ sh.R ++
    (rparenC :: sh.s5)

/-- Well-formedness of a shape (see the section comment). -/
@[reducible]
def ManifestShape.Ok (sh : ManifestShape) : Prop :=
  findSub endBFLit sh.text = some (sh.s0 ++ beginBFLit ++ sh.s1).length ∧
  findSub endFRLit sh.text =
    some (sh.s0 ++ beginBFLit ++ sh.s1 ++ endBFLit ++ sh.s2 ++ beginFRLit ++
      sh.s3).length ∧
  findSub sourcesKeyLit sh.text =
    some (sh.s0 ++ beginBFLit ++ sh.s1 ++ endBFLit ++ sh.s2 ++ beginFRLit ++
      sh.s3 ++ endFRLit ++ sh.s4).length ∧
  sh.M ≠ [] ∧ rbraceC ∉ sh.M ∧
  sh.R ≠ [] ∧ rparenC ∉ sh.R ∧ rbraceC ∉ sh.R ∧ lparenC ∉ sh.R ∧
  lparenC ∉ (rparenC :: sh.s5).take (runLen rbraceC (rparenC :: sh.s5))

/-- Appending the three blocks of one registration to a shape. -/
def ManifestShape.insertBlocks (sh : ManifestShape) (bfB frB phB : List Char) :
    ManifestShape :=
  { sh with s1 := sh.s1 ++ bfB, s3 := sh.s3 ++ frB, R := sh.R ++ phB }

/-- The block inserted into the `PBXBuildFile` section (entry plus newline). -/
def bfBlock (build_file_id file_ref_id file_name : List Char) : List Char :=
  build_file_entry build_file_id file_ref_id file_name ++ ['\n']

/-- The block inserted into the `PBXFileReference` section (entry plus newline). -/
def frBlock (file_ref_id file_name : List Char) : List Char :=
  file_ref_entry file_ref_id file_name ++ ['\n']

/-- The block inserted into the build-phase file list (newline plus reference). -/
def phBlock (build_file_id file_name : List Char) : List Char :=
  '\n' :: build_file_ref build_file_id file_name

/-- The tab character. -/
def tabC : Char := '\t'

/-- The newline character. -/
def nlC : Char := '\n'

/-- The comma character. -/
def commaC : Char := ','

/-- Cleanliness of the three blocks minted for one file: none contains a
section-end marker or the build-phase key (true of every actual run, where the
identifiers are 24 uppercase-hex characters), and the phase block contains no
parenthesis or closing brace. -/
@[reducible]
def blocksClean (file_ref_id build_file_id file_name : List Char) : Prop :=
  inText endBFLit (bfBlock build_file_id file_ref_id file_name) = false ∧
  inText endFRLit (bfBlock build_file_id file_ref_id file_name) = false ∧
  inText sourcesKeyLit (bfBlock build_file_id file_ref_id file_name) = false ∧
  inText endBFLit (frBlock file_ref_id file_name) = false ∧
  inText endFRLit (frBlock file_ref_id file_name) = false ∧
  inText sourcesKeyLit (frBlock file_ref_id file_name) = false ∧
  inText endBFLit (phBlock build_file_id file_name) = false ∧
  inText endFRLit (phBlock build_file_id file_name) = false ∧
  inText sourcesKeyLit (phBlock build_file_id file_name) = false ∧
  rbraceC ∉ phBlock build_file_id file_name ∧
  rparenC ∉ phBlock build_file_id file_name ∧
  lparenC ∉ phBlock build_file_id file_name

/-- Claim C1 as stated: if the first URL yields zero qualifying records and the
second at least one, the third URL is not navigated to and every returned
record stems from the second URL; and in general the loop stops trying further
URLs exactly when at least one record was found at the current URL (formalised
by its consequence: a run that returns an empty mapping never stopped early,
so it navigated to all three URLs). -/
def C1prop : Prop :=
  ∀ fetch : String → FetchResult,
    (yieldCount (fetch URL1) = 0 → 1 ≤ yieldCount (fetch URL2) →
      (URL3 ∉ scrapeTried fetch ∧ ∀ p ∈ scrapeData fetch, p.2.source = URL2)) ∧
    (scrapeData fetch = [] → scrapeTried fetch = sources)

/-- A fetch oracle on which the scraper stops at the first URL although zero
records were found there: the first page contains the season marker but no
qualifying anchor, while the second page would yield one record. -/
def fetchC1 : String → FetchResult := fun u =>
  if u = URL1 then .page ("wow guides Season 3 overview") []
  else if u = URL2 then
    .page ("Season 3")
      [{ text := "Ara-Kara, City of Echoes", href := "/guide/dungeon/ara-kara" }]
  else .fetchError

/-- A fetch oracle failing on every URL. -/
def fetchAllErr : String → FetchResult := fun _ => .fetchError

/-- A fetch oracle for the amended C1: the first URL errors, the second yields
one qualifying record. -/
def fetchW1 : String → FetchResult := fun u =>
  if u = URL2 then
    .page ("The War Within dungeons")
      [{ text := "Priory of the Sacred Flame", href := "/wow/dungeon/priory" }]
  else .fetchError

/-- Concrete anchors for exercising the per-page selection: six of the seven
anchors match the `href` selector, and the sixth match is beyond the cap. -/
def anchorsW : List Anchor :=
  [{ text := "Ara-Kara, City of Echoes", href := "/d/dungeon/1" },
   { text := "News", href := "/news/latest" },
   { text := "The Dawnbreaker", href := "/d/dungeon/2" },
   { text := "Priory of the Sacred Flame", href := "/d/dungeon/3" },
   { text := "Random link", href := "/d/dungeon/4" },
   { text := "Tazavesh, the Veiled Market", href := "/d/dungeon/5" },
   { text := "Operation: Floodgate", href := "/d/dungeon/6" }]

/-- A concrete well-formed miniature manifest. -/
def shW : ManifestShape :=
  { s0 := ("// !$*UTF8*$!\n".data)
  , s1 := ("\n\t\tAAA /* X.swift in Sources */ = \x7bisa = PBXBuildFile; fileRef = BBB /* X.swift */; \x7d;\n".data)
  , s2 := ("\n".data)
  , s3 := ("\n\t\tBBB /* X.swift */ = \x7bisa = PBXFileReference; \x7d;\n".data)
  , s4 := ("\n".data)
  , M := ("\n\t\t\tisa = PBXSourcesBuildPhase;\n\t\t\t".data)
  , R := ("\n\t\t\t\tAAA /* X.swift in Sources */,\n\t\t\t".data)
  , s5 := (";\n\t\t\x7d;\n".data) }

/-- Concrete identifier pairs for witness runs. -/
def idsW : Nat → List Char × List Char := fun k =>
  if k = 0 then (("FR1A".data), ("BF1A".data))
  else if k = 1 then (("FR2A".data), ("BF2A".data))
  else (("FR3A".data), ("BF3A".data))

/-- A manifest without any `PBXFileReference` section delimiters. -/
def mC3 : List Char :=
  ("/* Begin PBXBuildFile section */\n/* End PBXBuildFile section */\n".data)

/-- A manifest already containing all three target file names. -/
def mC4 : List Char :=
  ("DungeonTests.swift BossEncounterTests.swift SeasonTests.swift".data)

/-- None of the three blocks minted for one file contains `pat` (used for the
other files' duplicate checks in `main`'s loop). -/
@[reducible]
def blocksFree (pat file_ref_id build_file_id file_name : List Char) : Prop :=
  inText pat (bfBlock build_file_id file_ref_id file_name) = false ∧
  inText pat (frBlock file_ref_id file_name) = false ∧
  inText pat (phBlock build_file_id file_name) = false

theorem headMatch_iff (pat t : List Char) :
    headMatch pat t = true ↔ ∃ s, t = pat ++ s := by
  induction pat generalizing t with
  | nil =>
    simp only [headMatch]
    exact ⟨fun _ => ⟨t, by simp⟩, fun _ => trivial⟩
  | cons a as ih =>
    cases t with
    | nil =>
      simp only [headMatch]
      constructor
      · intro h; cases h
      · rintro ⟨s, hs⟩; simp at hs
    | cons b bs =>
      simp only [headMatch, Bool.and_eq_true, beq_iff_eq, ih]
      constructor
      · rintro ⟨rfl, s, rfl⟩; exact ⟨s, rfl⟩
      · rintro ⟨s, hs⟩
        rw [List.cons_append] at hs
        injection hs with h1 h2
        exact ⟨h1.symm, s, h2⟩

theorem occursAt_iff_headMatch (pat t : List Char) (p : Nat) (hp : pat ≠ []) :
    OccursAt pat t p ↔ headMatch pat (t.drop p) = true := by
  constructor
  · rintro ⟨u, v, rfl, rfl⟩
    rw [headMatch_iff]
    refine ⟨v, ?_⟩
    rw [List.append_assoc, List.drop_left]
  · intro h
    rw [headMatch_iff] at h
    obtain ⟨s, hs⟩ := h
    by_cases hple : p ≤ t.length
    · refine ⟨t.take p, s, ?_, by simp [hple]⟩
      conv_lhs => rw [← List.take_append_drop p t]
      rw [hs, List.append_assoc]
    · exfalso
      have hnil : t.drop p = [] := List.drop_eq_nil_of_le (le_of_not_le hple)
      rw [hnil] at hs
      exact hp (List.append_eq_nil.mp hs.symm).1

theorem occursAt_nil (pat : List Char) (p : Nat) (hp : pat ≠ []) :
    ¬ OccursAt pat [] p := by
  rintro ⟨u, v, h, -⟩
  exact hp (List.append_eq_nil.mp (List.append_eq_nil.mp h.symm).1).2

theorem occursAt_cons_succ (pat : List Char) (c : Char) (cs : List Char) (p : Nat) :
    OccursAt pat (c :: cs) (p + 1) ↔ OccursAt pat cs p := by
  constructor
  · rintro ⟨u, v, he, hl⟩
    cases u with
    | nil => simp at hl
    | cons b bs =>
      simp only [List.cons_append] at he
      injection he with h1 h2
      exact ⟨bs, v, by simpa using h2, by simpa using hl⟩
  · rintro ⟨u, v, rfl, rfl⟩
    exact ⟨c :: u, v, rfl, by simp⟩

theorem inText_iff (pat t : List Char) (hp : pat ≠ []) :
    inText pat t = true ↔ ∃ p, OccursAt pat t p := by
  induction t with
  | nil =>
    simp only [inText]
    constructor
    · intro h
      rw [headMatch_iff] at h
      obtain ⟨s, hs⟩ := h
      exact absurd (List.append_eq_nil.mp hs.symm).1 hp
    · rintro ⟨p, hocc⟩
      exact absurd hocc (occursAt_nil pat p hp)
  | cons c cs ih =>
    simp only [inText, Bool.or_eq_true]
    constructor
    · rintro (h | h)
      · exact ⟨0, (occursAt_iff_headMatch pat (c :: cs) 0 hp).mpr h⟩
      · obtain ⟨p, hocc⟩ := ih.mp h
        exact ⟨p + 1, (occursAt_cons_succ pat c cs p).mpr hocc⟩
    · rintro ⟨p, hocc⟩
      cases p with
      | zero =>
        exact Or.inl ((occursAt_iff_headMatch pat (c :: cs) 0 hp).mp hocc)
      | succ p' =>
        exact Or.inr (ih.mpr ⟨p', (occursAt_cons_succ pat c cs p').mp hocc⟩)

theorem findSub_eq_some_iff (pat t : List Char) (p : Nat) (hp : pat ≠ []) :
    findSub pat t = some p ↔ OccursAt pat t p ∧ ∀ q, q < p → ¬ OccursAt pat t q := by
  induction t generalizing p with
  | nil =>
    have hhm : headMatch pat [] = false := by
      cases pat with
      | nil => exact absurd rfl hp
      | cons a as => rfl
    simp only [findSub, hhm]
    constructor
    · intro h; simp at h
    · rintro ⟨hocc, -⟩
      exact absurd hocc (occursAt_nil pat p hp)
  | cons c cs ih =>
    by_cases h0 : headMatch pat (c :: cs) = true
    · rw [findSub, if_pos h0]
      constructor
      · intro h
        obtain rfl : p = 0 := by simpa using h.symm
        refine ⟨(occursAt_iff_headMatch pat (c :: cs) 0 hp).mpr h0,
                fun q hq => absurd hq (by omega)⟩
      · rintro ⟨hocc, hmin⟩
        cases p with
        | zero => rfl
        | succ p' =>
          exact absurd ((occursAt_iff_headMatch pat (c :: cs) 0 hp).mpr h0)
            (hmin 0 (Nat.succ_pos p'))
    · rw [findSub, if_neg h0]
      constructor
      · intro h
        obtain ⟨p', hp', rfl⟩ : ∃ p', findSub pat cs = some p' ∧ p = p' + 1 := by
          cases hfs : findSub pat cs with
          | none => rw [hfs] at h; simp at h
          | some q => rw [hfs] at h; simp at h; exact ⟨q, rfl, h.symm⟩
        obtain ⟨hocc, hmin⟩ := (ih p').mp hp'
        refine ⟨(occursAt_cons_succ pat c cs p').mpr hocc, ?_⟩
        intro q hq
        cases q with
        | zero =>
          intro hctr
          exact h0 ((occursAt_iff_headMatch pat (c :: cs) 0 hp).mp hctr)
        | succ q' =>
          intro hctr
          exact hmin q' (by omega) ((occursAt_cons_succ pat c cs q').mp hctr)
      · rintro ⟨hocc, hmin⟩
        cases p with
        | zero =>
          exact absurd ((occursAt_iff_headMatch pat (c :: cs) 0 hp).mp hocc) h0
        | succ p' =>
          have hsome : findSub pat cs = some p' := by
            refine (ih p').mpr ⟨(occursAt_cons_succ pat c cs p').mp hocc, ?_⟩
            intro q hq hctr
            exact hmin (q + 1) (by omega) ((occursAt_cons_succ pat c cs q).mpr hctr)
          simp [hsome]

theorem headMatch_append_left (pat x y : List Char) (h : headMatch pat (x ++ y) = true)
    (hl : pat.length ≤ x.length) : headMatch pat x = true := by
  induction pat generalizing x with
  | nil => rfl
  | cons a as ih =>
    cases x with
    | nil => simp at hl
    | cons b bs =>
      simp only [List.cons_append, headMatch, Bool.and_eq_true] at h ⊢
      exact ⟨h.1, ih bs h.2 (by simpa using hl)⟩

theorem occursAt_append_left (pat a b : List Char) (p : Nat)
    (h : OccursAt pat a p) : OccursAt pat (a ++ b) p := by
  obtain ⟨u, v, rfl, rfl⟩ := h
  exact ⟨u, v ++ b, by simp [List.append_assoc], rfl⟩

theorem occursAt_append_right_intro (pat a b : List Char) (p : Nat)
    (h : OccursAt pat b p) : OccursAt pat (a ++ b) (a.length + p) := by
  obtain ⟨u, v, rfl, rfl⟩ := h
  exact ⟨a ++ u, v, by simp [List.append_assoc], by simp⟩

theorem occursAt_shift_right (pat a b : List Char) (p : Nat) (hp : pat ≠ [])
    (hle : a.length ≤ p) : OccursAt pat (a ++ b) p ↔ OccursAt pat b (p - a.length) := by
  rw [occursAt_iff_headMatch pat _ _ hp, occursAt_iff_headMatch pat _ _ hp]
  have hpe : p = a.length + (p - a.length) := by omega
  have hd : (a ++ b).drop p = b.drop (p - a.length) := by
    conv_lhs => rw [hpe]
    rw [List.drop_append]
  rw [hd]

theorem occursAt_left_of (pat a b : List Char) (p : Nat) (hp : pat ≠ [])
    (hfit : p + pat.length ≤ a.length) (h : OccursAt pat (a ++ b) p) :
    OccursAt pat a p := by
  rw [occursAt_iff_headMatch pat _ _ hp] at h ⊢
  rw [List.drop_append_of_le_length (by omega)] at h
  exact headMatch_append_left pat _ b h (by simp; omega)

theorem occursAt_char (pat t : List Char) (p q : Nat) (hocc : OccursAt pat t p)
    (h1 : p ≤ q) (h2 : q < p + pat.length) :
    ∃ ch, t[q]? = some ch ∧ ch ∈ pat := by
  obtain ⟨u, v, rfl, rfl⟩ := hocc
  have hq : q - u.length < pat.length := by omega
  refine ⟨pat.get ⟨q - u.length, hq⟩, ?_, List.get_mem pat _ hq⟩
  rw [List.getElem?_append_left (by simp; omega), List.getElem?_append_right (by omega)]
  exact List.getElem?_eq_getElem hq

/-- Workhorse: an occurrence of `pat` in `P ++ block ++ Q` is entirely inside `P`
or entirely inside `Q`, provided `pat` does not occur in `block`, and neither the
first nor the last character of `block` occurs in `pat` (which rules out
occurrences straddling a boundary of the inserted block). -/
theorem occursAt_insert_cases (pat P block Q : List Char) (p : Nat) (hp : pat ≠ [])
    (hc lc : Char) (hhd : block.head? = some hc) (hlast : block.getLast? = some lc)
    (hhc : hc ∉ pat) (hlc : lc ∉ pat) (hclean : inText pat block = false) :
    OccursAt pat (P ++ block ++ Q) p →
      (p + pat.length ≤ P.length ∧ OccursAt pat P p) ∨
      (P.length + block.length ≤ p ∧ OccursAt pat Q (p - P.length - block.length)) := by
  intro hocc
  have hbne : block ≠ [] := by rintro rfl; simp at hhd
  have hT : P ++ block ++ Q = P ++ (block ++ Q) := by rw [List.append_assoc]
  have hmid : ∀ q, P.length ≤ q → q < P.length + block.length →
      (P ++ block ++ Q)[q]? = block[q - P.length]? := by
    intro q hq1 hq2
    rw [hT, List.getElem?_append_right (by omega), List.getElem?_append_left (by omega)]
  rcases Nat.lt_or_ge p P.length with hplt | hpge
  · rcases le_or_lt (p + pat.length) P.length with hfit | hnofit
    · exact Or.inl ⟨hfit, occursAt_left_of pat P (block ++ Q) p hp hfit (hT ▸ hocc)⟩
    · exfalso
      obtain ⟨ch, hch, hmem⟩ := occursAt_char pat _ p P.length hocc (by omega) (by omega)
      rw [hmid P.length (by omega)
        (by have := List.length_pos.mpr hbne; omega)] at hch
      have : block[0]? = some hc := by
        cases block with
        | nil => simp at hhd
        | cons x xs => simpa using hhd
      rw [Nat.sub_self, this] at hch
      obtain rfl : hc = ch := by simpa using hch
      exact hhc hmem
  · rcases Nat.lt_or_ge p (P.length + block.length) with hpblk | hpright
    · rcases le_or_lt (p + pat.length) (P.length + block.length) with hfit | hnofit
      · exfalso
        have hob : OccursAt pat block (p - P.length) := by
          have h1 : OccursAt pat (block ++ Q) (p - P.length) :=
            (occursAt_shift_right pat P (block ++ Q) p hp hpge).mp (hT ▸ hocc)
          exact occursAt_left_of pat block Q (p - P.length) hp (by omega) h1
        have htrue : inText pat block = true := (inText_iff pat block hp).mpr ⟨_, hob⟩
        simp [htrue] at hclean
      · exfalso
        have hq2 : P.length + block.length - 1 < p + pat.length := by omega
        obtain ⟨ch, hch, hmem⟩ :=
          occursAt_char pat _ p (P.length + block.length - 1) hocc (by omega) hq2
        rw [hmid _ (by have := List.length_pos.mpr hbne; omega) (by omega)] at hch
        have hgl : block.getLast? = block[block.length - 1]? := List.getLast?_eq_getElem? block
        have hidx : P.length + block.length - 1 - P.length = block.length - 1 := by omega
        rw [hidx] at hch
        rw [hgl] at hlast
        rw [hlast] at hch
        have : ch = lc := by simpa using hch.symm
        exact hlc (this ▸ hmem)
    · refine Or.inr ⟨hpright, ?_⟩
      have := (occursAt_shift_right pat (P ++ block) Q p hp (by simpa using hpright)).mp hocc
      simpa [Nat.sub_sub] using this

/-- No occurrence of `pat` can be created by inserting a clean block. -/
theorem inText_insert_false (pat P block Q : List Char) (hp : pat ≠ [])
    (hc lc : Char) (hhd : block.head? = some hc) (hlast : block.getLast? = some lc)
    (hhc : hc ∉ pat) (hlc : lc ∉ pat) (hclean : inText pat block = false)
    (h : inText pat (P ++ Q) = false) : inText pat (P ++ block ++ Q) = false := by
  rw [← Bool.not_eq_true] at h ⊢
  intro hctr
  apply h
  rw [inText_iff pat _ hp] at hctr ⊢
  obtain ⟨p, hocc⟩ := hctr
  rcases occursAt_insert_cases pat P block Q p hp hc lc hhd hlast hhc hlc hclean hocc with
    ⟨-, hP⟩ | ⟨-, hQ⟩
  · exact ⟨p, occursAt_append_left pat P Q p hP⟩
  · exact ⟨P.length + (p - P.length - block.length),
      occursAt_append_right_intro pat P Q _ hQ⟩

/-- Inserting a clean block before the first occurrence of `pat` shifts that
first occurrence by the block's length. -/
theorem findSub_insert_before (pat P block Q : List Char) (n : Nat) (hp : pat ≠ [])
    (hc lc : Char) (hhd : block.head? = some hc) (hlast : block.getLast? = some lc)
    (hhc : hc ∉ pat) (hlc : lc ∉ pat) (hclean : inText pat block = false)
    (hfind : findSub pat (P ++ Q) = some n) (hn : P.length ≤ n) :
    findSub pat (P ++ block ++ Q) = some (n + block.length) := by
  have hpl : 0 < pat.length := List.length_pos.mpr hp
  obtain ⟨hocc, hmin⟩ := (findSub_eq_some_iff pat _ n hp).mp hfind
  have hoccQ : OccursAt pat Q (n - P.length) :=
    (occursAt_shift_right pat P Q n hp hn).mp hocc
  rw [findSub_eq_some_iff pat _ _ hp]
  constructor
  · have := occursAt_append_right_intro pat (P ++ block) Q (n - P.length) hoccQ
    have heq : (P ++ block).length + (n - P.length) = n + block.length := by
      simp only [List.length_append]; omega
    rw [heq] at this
    exact this
  · intro q hq hctr
    rcases occursAt_insert_cases pat P block Q q hp hc lc hhd hlast hhc hlc hclean hctr with
      ⟨hfit, hP⟩ | ⟨hge, hQ⟩
    · exact hmin q (by omega) (occursAt_append_left pat P Q q hP)
    · have := occursAt_append_right_intro pat P Q (q - P.length - block.length) hQ
      exact hmin (P.length + (q - P.length - block.length)) (by omega) this

/-- Inserting a clean block strictly after an occurrence of `pat` that is the
first one leaves the first occurrence in place. -/
theorem findSub_insert_after (pat P block Q : List Char) (n : Nat) (hp : pat ≠ [])
    (hc lc : Char) (hhd : block.head? = some hc) (hlast : block.getLast? = some lc)
    (hhc : hc ∉ pat) (hlc : lc ∉ pat) (hclean : inText pat block = false)
    (hfind : findSub pat (P ++ Q) = some n) (hn : n + pat.length ≤ P.length) :
    findSub pat (P ++ block ++ Q) = some n := by
  obtain ⟨hocc, hmin⟩ := (findSub_eq_some_iff pat _ n hp).mp hfind
  have hoccP : OccursAt pat P n := occursAt_left_of pat P Q n hp hn hocc
  rw [findSub_eq_some_iff pat _ _ hp]
  constructor
  · exact occursAt_append_left pat (P ++ block) Q n
      (occursAt_append_left pat P block n hoccP)
  · intro q hq hctr
    rcases occursAt_insert_cases pat P block Q q hp hc lc hhd hlast hhc hlc hclean hctr with
      ⟨hfit, hP⟩ | ⟨hge, hQ⟩
    · exact hmin q hq (occursAt_append_left pat P Q q hP)
    · have hple : P.length < q := by
        have := List.length_pos.mpr (show block ≠ [] by rintro rfl; simp at hhd)
        omega
      omega

theorem occursAt_drop_iff (pat t : List Char) (d q : Nat) (hp : pat ≠ []) :
    OccursAt pat (t.drop d) q ↔ OccursAt pat t (d + q) := by
  rw [occursAt_iff_headMatch pat _ _ hp, occursAt_iff_headMatch pat _ _ hp]
  have hdd : (t.drop d).drop q = t.drop (d + q) := by
    rw [List.drop_drop]
  rw [hdd]

theorem hasSection_iff (bM eM t : List Char) (hb : bM ≠ []) (he : eM ≠ []) :
    hasSection bM eM t = true ↔
      ∃ p q, OccursAt bM t p ∧ OccursAt eM t q ∧ p + bM.length ≤ q := by
  induction t with
  | nil =>
    have hhm : headMatch bM [] = false := by
      cases bM with
      | nil => exact absurd rfl hb
      | cons a as => rfl
    simp only [hasSection, hhm, Bool.false_and, Bool.false_eq_true, false_iff]
    rintro ⟨p, q, hbp, -, -⟩
    exact occursAt_nil bM p hb hbp
  | cons c cs ih =>
    simp only [hasSection, Bool.or_eq_true, Bool.and_eq_true]
    constructor
    · rintro (⟨h1, h2⟩ | h)
      · obtain ⟨q', hq'⟩ := (inText_iff eM _ he).mp h2
        refine ⟨0, bM.length + q', ?_, ?_, by omega⟩
        · exact (occursAt_iff_headMatch bM _ 0 hb).mpr h1
        · exact (occursAt_drop_iff eM (c :: cs) bM.length q' he).mp hq'
      · obtain ⟨p, q, h1, h2, h3⟩ := ih.mp h
        exact ⟨p + 1, q + 1, (occursAt_cons_succ bM c cs p).mpr h1,
          (occursAt_cons_succ eM c cs q).mpr h2, by omega⟩
    · rintro ⟨p, q, h1, h2, h3⟩
      cases p with
      | zero =>
        left
        refine ⟨(occursAt_iff_headMatch bM _ 0 hb).mp h1, ?_⟩
        refine (inText_iff eM _ he).mpr ⟨q - bM.length, ?_⟩
        rw [occursAt_drop_iff eM (c :: cs) bM.length (q - bM.length) he]
        have : bM.length + (q - bM.length) = q := by omega
        rw [this]
        exact h2
      | succ p' =>
        right
        refine ih.mpr ⟨p', q - 1, (occursAt_cons_succ bM c cs p').mp h1, ?_, by omega⟩
        have hq : q = (q - 1) + 1 := by omega
        rw [hq] at h2
        exact (occursAt_cons_succ eM c cs (q - 1)).mp h2

/-- Inserting a block that is clean for both markers cannot create a section
that was not there. -/
theorem hasSection_insert_false (bM eM P block Q : List Char)
    (hb : bM ≠ []) (he : eM ≠ [])
    (hc lc : Char) (hhd : block.head? = some hc) (hlast : block.getLast? = some lc)
    (hhcb : hc ∉ bM) (hlcb : lc ∉ bM) (hhce : hc ∉ eM) (hlce : lc ∉ eM)
    (hcleanb : inText bM block = false) (hcleane : inText eM block = false)
    (h : hasSection bM eM (P ++ Q) = false) :
    hasSection bM eM (P ++ block ++ Q) = false := by
  have hbl : 0 < bM.length := List.length_pos.mpr hb
  have hel : 0 < eM.length := List.length_pos.mpr he
  rw [← Bool.not_eq_true] at h ⊢
  intro hctr
  apply h
  rw [hasSection_iff bM eM _ hb he] at hctr ⊢
  obtain ⟨p, q, h1, h2, h3⟩ := hctr
  rcases occursAt_insert_cases bM P block Q p hb hc lc hhd hlast hhcb hlcb hcleanb h1 with
    ⟨hf1, hP1⟩ | ⟨hg1, hQ1⟩ <;>
  rcases occursAt_insert_cases eM P block Q q he hc lc hhd hlast hhce hlce hcleane h2 with
    ⟨hf2, hP2⟩ | ⟨hg2, hQ2⟩
  · exact ⟨p, q, occursAt_append_left bM P Q p hP1, occursAt_append_left eM P Q q hP2, h3⟩
  · refine ⟨p, P.length + (q - P.length - block.length),
      occursAt_append_left bM P Q p hP1,
      occursAt_append_right_intro eM P Q _ hQ2, by omega⟩
  · omega
  · refine ⟨P.length + (p - P.length - block.length),
      P.length + (q - P.length - block.length),
      occursAt_append_right_intro bM P Q _ hQ1,
      occursAt_append_right_intro eM P Q _ hQ2, by omega⟩

theorem insertAt_sublist (i : Nat) (block content : List Char) :
    List.Sublist content (insertAt i block content) := by
  have h1 : List.Sublist (content.take i ++ content.drop i)
      (content.take i ++ (block ++ content.drop i)) :=
    (List.append_sublist_append_left (content.take i)).mpr
      (List.sublist_append_right block (content.drop i))
  have h2 : content.take i ++ content.drop i = content := List.take_append_drop i content
  rw [h2] at h1
  unfold insertAt
  rw [List.append_assoc]
  exact h1

theorem bfStep_sublist (b f n content : List Char) :
    List.Sublist content (bfStep b f n content) := by
  unfold bfStep
  split
  · exact insertAt_sublist _ _ content
  · exact List.Sublist.refl content

theorem frStep_sublist (f n content : List Char) :
    List.Sublist content (frStep f n content) := by
  unfold frStep
  split
  · exact insertAt_sublist _ _ content
  · exact List.Sublist.refl content

theorem phaseStep_sublist (b n content : List Char) :
    List.Sublist content (phaseStep b n content) := by
  unfold phaseStep
  split
  · exact insertAt_sublist _ _ content
  · exact List.Sublist.refl content

theorem add_file_sublist (file_ref_id build_file_id content filePath file_name :
    List Char) :
    List.Sublist content
      (add_file_to_project file_ref_id build_file_id content filePath file_name) := by
  unfold add_file_to_project
  exact ((bfStep_sublist _ _ _ content).trans (frStep_sublist _ _ _)).trans
    (phaseStep_sublist _ _ _)

theorem mainLoop_filter (onDisk : List Char → Bool) (ids : Nat → List Char × List Char)
    (l : List (List Char × List Char)) (content : List Char) (k : Nat) :
    mainLoop onDisk ids l content k =
      ((mainLoop onDisk ids (l.filter (fun e => onDisk e.1)) content k).1,
       (l.filter (fun e => !(onDisk e.1))).map (fun e => e.1)) := by
  induction l generalizing content k with
  | nil => simp [mainLoop]
  | cons e rest ih =>
    obtain ⟨fp, fn⟩ := e
    by_cases hd : onDisk fp
    · by_cases hin : inText fn content
      · simp [mainLoop, List.filter_cons, hd, hin, ih content k]
      · simp [mainLoop, List.filter_cons, hd, hin,
          ih (add_file_to_project (ids k).1 (ids k).2 content fp fn) (k + 1)]
    · have hd' : onDisk fp = false := by simpa using hd
      simp [mainLoop, List.filter_cons, hd', ih content k]

theorem mainLoop_all_present (onDisk : List Char → Bool)
    (ids : Nat → List Char × List Char) (l : List (List Char × List Char))
    (content : List Char) (k : Nat)
    (h : ∀ e ∈ l, inText e.2 content = true) :
    (mainLoop onDisk ids l content k).1 = content := by
  induction l generalizing k with
  | nil => rfl
  | cons e rest ih =>
    obtain ⟨fp, fn⟩ := e
    have hfn : inText fn content = true := h (fp, fn) (by simp)
    by_cases hd : onDisk fp
    · simp only [mainLoop, hd, if_true, hfn]
      exact ih k (fun e he => h e (by simp [he]))
    · have hd' : onDisk fp = false := by simpa using hd
      simp only [mainLoop, hd', Bool.false_eq_true, if_false]
      exact ih k (fun e he => h e (by simp [he]))

theorem occursAt_getElem? (pat t : List Char) (p i : Nat) (hocc : OccursAt pat t p)
    (hi : i < pat.length) : t[p + i]? = pat[i]? := by
  obtain ⟨u, v, rfl, rfl⟩ := hocc
  rw [List.getElem?_append_left (by simp; omega), List.getElem?_append_right (by omega)]
  congr 1
  omega

theorem runLen_le_length (bad : Char) (l : List Char) : runLen bad l ≤ l.length := by
  induction l with
  | nil => simp [runLen]
  | cons c cs ih =>
    simp only [runLen, List.length_cons]
    split
    · omega
    · omega

theorem runLen_getElem (bad : Char) (l : List Char) (h : runLen bad l < l.length) :
    l[runLen bad l]? = some bad := by
  induction l with
  | nil => simp at h
  | cons c cs ih =>
    by_cases hc : c == bad
    · simp only [runLen, hc, if_true]
      have hcb : c = bad := by simpa using hc
      simp [hcb]
    · simp only [runLen, hc, Bool.false_eq_true, if_false] at h ⊢
      simp only [List.length_cons] at h
      simpa using ih (by omega)

theorem runLen_append_of (bad : Char) (x y : List Char) (hx : bad ∉ x) :
    runLen bad (x ++ y) = x.length + runLen bad y := by
  induction x with
  | nil => simp
  | cons c cs ih =>
    have hc : (c == bad) = false := by
      have hne : c ≠ bad := fun hcc => hx (by simp [hcc])
      simpa using hne
    have hstep : runLen bad ((c :: cs) ++ y) = runLen bad (cs ++ y) + 1 := by
      show runLen bad (c :: (cs ++ y)) = runLen bad (cs ++ y) + 1
      simp [runLen, hc]
    rw [hstep, ih (fun hm => hx (by simp [hm]))]
    simp only [List.length_cons]
    omega

theorem phaseTailAux_skip (rest : List Char) (hi lo : Nat) (hle : lo ≤ hi)
    (h : ∀ j, lo < j → j ≤ hi → headMatch filesLit (rest.drop j) = false) :
    phaseTailAux hi rest = phaseTailAux lo rest := by
  induction hi with
  | zero =>
    obtain rfl : lo = 0 := by omega
    rfl
  | succ hi' ih =>
    rcases eq_or_lt_of_le hle with heq | hlt
    · rw [heq]
    · have hhm := h (hi' + 1) (by omega) (le_refl _)
      simp only [phaseTailAux, hhm, Bool.false_eq_true, if_false]
      exact ih (by omega) (fun j h1 h2 => h j h1 (by omega))

theorem phaseTail_eq (M R T : List Char)
    (hM : M ≠ []) (hMb : rbraceC ∉ M)
    (hRne : R ≠ []) (hRp : rparenC ∉ R) (hRb : rbraceC ∉ R) (hRl : lparenC ∉ R)
    (hTrun : runLen rparenC T = 0)
    (hTl : lparenC ∉ T.take (runLen rbraceC T)) :
    phaseTail (M ++ (filesLit ++ (R ++ T))) =
      some (M.length + (filesLit.length + R.length)) := by
  have hflne : filesLit ≠ [] := by decide
  have hflb : rbraceC ∉ filesLit := by decide
  have hfl9 : filesLit.length = 9 := by decide
  have hfl8 : filesLit[8]? = some lparenC := by decide
  have hflnb : rbraceC ∉ filesLit := by decide
  have hmpos : 0 < M.length := List.length_pos.mpr hM
  have hrpos : 0 < R.length := List.length_pos.mpr hRne
  set rest := M ++ (filesLit ++ (R ++ T)) with hrest
  set w := runLen rbraceC T with hw
  have hjmax : runLen rbraceC rest = M.length + (filesLit.length + (R.length + w)) := by
    rw [hrest, runLen_append_of _ _ _ hMb, runLen_append_of _ _ _ hflb,
      runLen_append_of _ _ _ hRb]
  -- the text after the true `files = (` position
  have hdropM : rest.drop M.length = filesLit ++ (R ++ T) := by
    rw [hrest, List.drop_left]
  have hdropMF : rest.drop (M.length + filesLit.length) = R ++ T := by
    have h1 : (rest.drop M.length).drop filesLit.length =
        rest.drop (M.length + filesLit.length) := by
      rw [List.drop_drop]
    rw [← h1, hdropM, List.drop_left]
  -- no occurrence of `files = (` strictly after the true one inside the window
  have hfail : ∀ j, M.length < j → j ≤ runLen rbraceC rest →
      headMatch filesLit (rest.drop j) = false := by
    intro j hj1 hj2
    by_contra hcb
    rw [Bool.not_eq_false] at hcb
    have occ : OccursAt filesLit rest j :=
      (occursAt_iff_headMatch filesLit rest j hflne).mpr hcb
    have h8 : rest[j + 8]? = some lparenC := by
      rw [occursAt_getElem? filesLit rest j 8 occ (by omega), hfl8]
    have hget : ∀ q, M.length + filesLit.length + R.length ≤ q →
        rest[q]? = T[q - (M.length + filesLit.length + R.length)]? := by
      intro q hq
      rw [hrest, List.getElem?_append_right (by omega),
        List.getElem?_append_right (by omega),
        List.getElem?_append_right (by omega)]
      congr 1
      omega
    rcases lt_or_ge (j + 8) (M.length + filesLit.length + R.length) with hA | hB
    · -- the required `(` would sit inside `R`
      have hgetR : rest[j + 8]? = R[j + 8 - (M.length + filesLit.length)]? := by
        have hidx2 : j + 8 - (M.length + filesLit.length) =
            j + 8 - M.length - filesLit.length := by omega
        rw [hidx2, hrest, List.getElem?_append_right (by omega),
          List.getElem?_append_right (by omega),
          List.getElem?_append_left (by omega)]
      rw [hgetR] at h8
      exact hRl (List.getElem?_mem h8)
    · -- the required `(` would sit inside `T`
      set idx := j + 8 - (M.length + filesLit.length + R.length) with hidx
      have hTq : rest[j + 8]? = T[idx]? := hget (j + 8) hB
      rw [hTq] at h8
      have hidxlen : idx < T.length := by
        rcases List.getElem?_eq_some_iff.mp h8 with ⟨hlt, -⟩
        exact hlt
      rcases lt_or_ge idx w with hC | hD
      · -- inside the brace-free window of `T`: contradicts `(`-freeness
        have : (T.take w)[idx]? = T[idx]? := List.getElem?_take_of_lt hC
        rw [← this] at h8
        exact hTl (List.getElem?_mem h8)
      · -- the occurrence would have to cover the closing brace of the window
        have hwT : w < T.length := by omega
        have hbrT : T[w]? = some rbraceC := by
          rw [hw]
          exact runLen_getElem rbraceC T (by rw [← hw]; exact hwT)
        have hbrest : rest[M.length + filesLit.length + R.length + w]? = some rbraceC := by
          rw [hget _ (by omega)]
          have : M.length + filesLit.length + R.length + w -
              (M.length + filesLit.length + R.length) = w := by omega
          rw [this]
          exact hbrT
        have hi1 : j ≤ M.length + filesLit.length + R.length + w := by omega
        have hi2 : M.length + filesLit.length + R.length + w ≤ j + 8 := by omega
        set i := M.length + filesLit.length + R.length + w - j with hi
        have hieq : j + i = M.length + filesLit.length + R.length + w := by omega
        have := occursAt_getElem? filesLit rest j i occ (by omega)
        rw [hieq, hbrest] at this
        exact hflnb (List.getElem?_mem this.symm)
  have hstart : phaseTailAux M.length rest =
      some (M.length + (filesLit.length + R.length)) := by
    obtain ⟨m', hm'⟩ : ∃ m', M.length = m' + 1 := ⟨M.length - 1, by omega⟩
    rw [hm']
    have hhm : headMatch filesLit (rest.drop (m' + 1)) = true := by
      rw [← hm', hdropM]
      exact (headMatch_iff filesLit _).mpr ⟨R ++ T, rfl⟩
    have hrun : runLen rparenC (rest.drop (m' + 1 + filesLit.length)) = R.length := by
      rw [← hm', hdropMF, runLen_append_of _ _ _ hRp, hTrun]
      omega
    simp only [phaseTailAux, hhm, if_true, hrun]
    rw [if_pos (by omega)]
    congr 1
    omega
  rw [phaseTail, phaseTailAux_skip rest _ M.length (by omega) hfail, hstart]

theorem phaseScan_skip (pre rest : List Char) (p : Nat)
    (h : ∀ q, q < pre.length → ¬ OccursAt sourcesKeyLit (pre ++ rest) q) :
    phaseScan (pre ++ rest) p = phaseScan rest (p + pre.length) := by
  induction pre generalizing p with
  | nil => simp
  | cons c pre' ih =>
    have hkne : sourcesKeyLit ≠ [] := by decide
    have hhm : headMatch sourcesKeyLit (c :: (pre' ++ rest)) = false := by
      by_contra hc
      rw [Bool.not_eq_false] at hc
      exact h 0 (by simp) ((occursAt_iff_headMatch _ _ 0 hkne).mpr hc)
    rw [List.cons_append]
    simp only [phaseScan, hhm, Bool.false_eq_true, if_false]
    have hrec := ih (p + 1) (fun q hq hctr =>
      h (q + 1) (by simp; omega) ((occursAt_cons_succ sourcesKeyLit c (pre' ++ rest) q).mpr hctr))
    rw [hrec]
    congr 1
    simp
    omega

theorem phaseScan_at_key (tail : List Char) (p t : Nat) (h : phaseTail tail = some t) :
    phaseScan (sourcesKeyLit ++ tail) p = some (p, p + sourcesKeyLit.length + t) := by
  have hne : sourcesKeyLit ≠ [] := by decide
  obtain ⟨k0, krest, hk⟩ : ∃ k0 krest, sourcesKeyLit = k0 :: krest := by
    cases hsk : sourcesKeyLit with
    | nil => exact absurd hsk hne
    | cons a as => exact ⟨a, as, rfl⟩
  have hhm : headMatch sourcesKeyLit (k0 :: (krest ++ tail)) = true := by
    rw [← List.cons_append, ← hk]
    exact (headMatch_iff _ _).mpr ⟨tail, rfl⟩
  have hdrop : (k0 :: (krest ++ tail)).drop sourcesKeyLit.length = tail := by
    rw [← List.cons_append, ← hk]
    exact List.drop_left _ _
  conv_lhs => rw [hk, List.cons_append]
  simp only [phaseScan, hhm, if_true, hdrop, h]

theorem phaseSearch_eq (pre tail : List Char) (t : Nat)
    (hfind : findSub sourcesKeyLit (pre ++ (sourcesKeyLit ++ tail)) = some pre.length)
    (ht : phaseTail tail = some t) :
    phaseSearch (pre ++ (sourcesKeyLit ++ tail)) =
      some (pre.length, pre.length + sourcesKeyLit.length + t) := by
  have hne : sourcesKeyLit ≠ [] := by decide
  obtain ⟨-, hmin⟩ := (findSub_eq_some_iff _ _ _ hne).mp hfind
  rw [phaseSearch, phaseScan_skip pre (sourcesKeyLit ++ tail) 0 (fun q hq => hmin q hq),
    phaseScan_at_key tail _ t ht]
  simp

theorem occursAt_of_eq (pat t u v : List Char) (h : t = u ++ pat ++ v) :
    OccursAt pat t u.length := ⟨u, v, h, rfl⟩

theorem hasSection_intro (bM eM t : List Char) (hb : bM ≠ []) (he : eM ≠ [])
    (p q : Nat) (h1 : OccursAt bM t p) (h2 : OccursAt eM t q)
    (hle : p + bM.length ≤ q) : hasSection bM eM t = true :=
  (hasSection_iff bM eM t hb he).mpr ⟨p, q, h1, h2, hle⟩

theorem insertAt_boundary (P Q block : List Char) :
    insertAt P.length block (P ++ Q) = P ++ block ++ Q := by
  unfold insertAt
  rw [List.take_left, List.drop_left, List.append_assoc]

theorem bfBlock_ne (b f n : List Char) : bfBlock b f n ≠ [] := by
  simp [bfBlock]

theorem bfBlock_head (b f n : List Char) : (bfBlock b f n).head? = some tabC := rfl

theorem bfBlock_last (b f n : List Char) : (bfBlock b f n).getLast? = some nlC := by
  unfold bfBlock
  rw [List.getLast?_append_of_ne_nil _ (by simp)]
  rfl

theorem frBlock_ne (f n : List Char) : frBlock f n ≠ [] := by
  simp [frBlock]

theorem frBlock_head (f n : List Char) : (frBlock f n).head? = some tabC := rfl

theorem frBlock_last (f n : List Char) : (frBlock f n).getLast? = some nlC := by
  unfold frBlock
  rw [List.getLast?_append_of_ne_nil _ (by simp)]
  rfl

theorem phBlock_ne (b n : List Char) : phBlock b n ≠ [] := by
  simp [phBlock]

theorem phBlock_head (b n : List Char) : (phBlock b n).head? = some nlC := rfl

theorem phBlock_last (b n : List Char) : (phBlock b n).getLast? = some commaC := by
  have h : phBlock b n =
      ('\n' :: ((("\t\t\t\t".data) ++ b ++ (" /* ".data)) ++ n)) ++
        (" in Sources */,".data) := rfl
  rw [h, List.getLast?_append_of_ne_nil _ (by decide)]
  decide

theorem bfStep_seam (bfId frId fn P Q : List Char)
    (hsec : hasSection beginBFLit endBFLit (P ++ Q) = true)
    (hfind : findSub endBFLit (P ++ Q) = some P.length) :
    bfStep bfId frId fn (P ++ Q) =
      P ++ (build_file_entry bfId frId fn ++ ['\n']) ++ Q := by
  unfold bfStep
  rw [if_pos hsec]
  have hpos : bfInsertPos (P ++ Q) = P.length := by
    unfold bfInsertPos
    rw [hfind]
  rw [hpos, insertAt_boundary]

theorem frStep_seam (frId fn P Q : List Char)
    (hsec : hasSection beginFRLit endFRLit (P ++ Q) = true)
    (hfind : findSub endFRLit (P ++ Q) = some P.length) :
    frStep frId fn (P ++ Q) = P ++ (file_ref_entry frId fn ++ ['\n']) ++ Q := by
  unfold frStep
  rw [if_pos hsec]
  have hpos : frInsertPos (P ++ Q) = P.length := by
    unfold frInsertPos
    rw [hfind]
  rw [hpos, insertAt_boundary]

theorem phaseStep_at (bfId fn P Q : List Char) (k : Nat)
    (hps : phaseSearch (P ++ Q) = some (k, P.length)) :
    phaseStep bfId fn (P ++ Q) = P ++ ('\n' :: build_file_ref bfId fn) ++ Q := by
  unfold phaseStep
  rw [hps]
  exact insertAt_boundary P Q _

set_option maxHeartbeats 1000000 in
/-- One `add_file_to_project` call on a well-formed manifest appends exactly
one entry to each of the two sections and one reference to the build-phase
file list, and the result is again well-formed. -/
theorem add_file_shape (sh : ManifestShape) (frId bfId fp fn : List Char)
    (hOk : sh.Ok) (hcl : blocksClean frId bfId fn) :
    add_file_to_project frId bfId sh.text fp fn =
      (sh.insertBlocks (bfBlock bfId frId fn) (frBlock frId fn)
        (phBlock bfId fn)).text ∧
    (sh.insertBlocks (bfBlock bfId frId fn) (frBlock frId fn)
      (phBlock bfId fn)).Ok := by
  obtain ⟨s0, s1, s2, s3, s4, M, R, s5⟩ := sh
  simp only [ManifestShape.Ok, ManifestShape.text, ManifestShape.insertBlocks] at hOk ⊢
  obtain ⟨hf1, hf2, hf3, hMne, hMb, hRne, hRp, hRb, hRl, hTl⟩ := hOk
  obtain ⟨c1, c2, c3, c4, c5, c6, c7, c8, c9, c10, c11, c12⟩ := hcl
  simp only [bfBlock, frBlock, phBlock] at c1 c2 c3 c4 c5 c6 c7 c8 c9 c10 c11 c12 ⊢
  have hEBF : endBFLit ≠ [] := by decide
  have hEFR : endFRLit ≠ [] := by decide
  have hKEY : sourcesKeyLit ≠ [] := by decide
  have htE1 : tabC ∉ endBFLit := by decide
  have htE2 : tabC ∉ endFRLit := by decide
  have htE3 : tabC ∉ sourcesKeyLit := by decide
  have hnE1 : nlC ∉ endBFLit := by decide
  have hnE2 : nlC ∉ endFRLit := by decide
  have hnE3 : nlC ∉ sourcesKeyLit := by decide
  have hcE1 : commaC ∉ endBFLit := by decide
  have hcE2 : commaC ∉ endFRLit := by decide
  have hcE3 : commaC ∉ sourcesKeyLit := by decide
  set bE1 := build_file_entry bfId frId fn ++ ['\n'] with hbE1
  set bE2 := file_ref_entry frId fn ++ ['\n'] with hbE2
  set bPH := '\n' :: build_file_ref bfId fn with hbPH
  have hE1h : bE1.head? = some tabC := bfBlock_head bfId frId fn
  have hE1l : bE1.getLast? = some nlC := bfBlock_last bfId frId fn
  have hE2h : bE2.head? = some tabC := frBlock_head frId fn
  have hE2l : bE2.getLast? = some nlC := frBlock_last frId fn
  have hPHh : bPH.head? = some nlC := phBlock_head bfId fn
  have hPHl : bPH.getLast? = some commaC := phBlock_last bfId fn
  set P1 := s0 ++ beginBFLit ++ s1 with hP1
  set Q1 := endBFLit ++ (s2 ++ (beginFRLit ++ (s3 ++ (endFRLit ++ (s4 ++
    (sourcesKeyLit ++ (M ++ (filesLit ++ (R ++ (rparenC :: s5)))))))))) with hQ1
  set P2 := P1 ++ bE1 ++ endBFLit ++ s2 ++ beginFRLit ++ s3 with hP2
  set Q2 := endFRLit ++ (s4 ++ (sourcesKeyLit ++ (M ++ (filesLit ++
    (R ++ (rparenC :: s5)))))) with hQ2
  set P3 := P2 ++ bE2 ++ endFRLit ++ s4 with hP3
  set tl := M ++ (filesLit ++ (R ++ (rparenC :: s5))) with htl
  set P4 := P3 ++ sourcesKeyLit ++ M ++ filesLit ++ R with hP4
  -- the original text, re-bracketed around the first insertion point
  have hch : P1 ++ endBFLit ++ s2 ++ beginFRLit ++ s3 ++ endFRLit ++ s4 ++
      sourcesKeyLit ++ M ++ filesLit ++ R ++ (rparenC :: s5) = P1 ++ Q1 := by
    rw [hQ1]
    simp only [List.append_assoc]
  rw [hch] at hf1 hf2 hf3 ⊢
  -- step 1: the PBXBuildFile insertion
  have hsec1 : hasSection beginBFLit endBFLit (P1 ++ Q1) = true := by
    refine hasSection_intro _ _ _ (by decide) hEBF s0.length P1.length ?_ ?_ ?_
    · exact occursAt_of_eq _ _ s0 (s1 ++ Q1)
        (by rw [hP1]; simp only [List.append_assoc])
    · exact occursAt_of_eq _ _ P1 (s2 ++ (beginFRLit ++ (s3 ++ (endFRLit ++ (s4 ++
        (sourcesKeyLit ++ (M ++ (filesLit ++ (R ++ (rparenC :: s5))))))))))
        (by rw [hQ1]; simp only [List.append_assoc])
    · rw [hP1]
      simp only [List.length_append]
      omega
  have hstep1 : bfStep bfId frId fn (P1 ++ Q1) = P1 ++ bE1 ++ Q1 :=
    bfStep_seam bfId frId fn P1 Q1 hsec1 hf1
  -- re-bracket around the second insertion point
  have hch2 : P1 ++ bE1 ++ Q1 = P2 ++ Q2 := by
    rw [hP2, hQ1, hQ2]
    simp only [List.append_assoc]
  -- step 2: the PBXFileReference insertion
  have hlenP2 : P2.length = (P1 ++ endBFLit ++ s2 ++ beginFRLit ++ s3).length +
      bE1.length := by
    rw [hP2]
    simp only [List.length_append]
    omega
  have hf2' : findSub endFRLit (P2 ++ Q2) = some P2.length := by
    have h := findSub_insert_before endFRLit P1 bE1 Q1
      (P1 ++ endBFLit ++ s2 ++ beginFRLit ++ s3).length hEFR tabC nlC hE1h hE1l
      htE2 hnE2 c2 hf2 (by simp only [List.length_append]; omega)
    rw [hch2] at h
    rw [h, hlenP2]
  have hsec2 : hasSection beginFRLit endFRLit (P2 ++ Q2) = true := by
    refine hasSection_intro _ _ _ (by decide) hEFR
      (P1 ++ bE1 ++ endBFLit ++ s2).length P2.length ?_ ?_ ?_
    · exact occursAt_of_eq _ _ (P1 ++ bE1 ++ endBFLit ++ s2) (s3 ++ Q2)
        (by rw [hP2, hQ2]; simp only [List.append_assoc])
    · exact occursAt_of_eq _ _ P2 (s4 ++ (sourcesKeyLit ++ (M ++ (filesLit ++
        (R ++ (rparenC :: s5))))))
        (by rw [hQ2]; simp only [List.append_assoc])
    · rw [hP2]
      simp only [List.length_append]
      omega
  have hstep2 : frStep frId fn (P2 ++ Q2) = P2 ++ bE2 ++ Q2 :=
    frStep_seam frId fn P2 Q2 hsec2 hf2'
  -- re-bracket around the build-phase match
  have hch3 : P2 ++ bE2 ++ Q2 = P3 ++ (sourcesKeyLit ++ tl) := by
    rw [hP3, hQ2, htl]
    simp only [List.append_assoc]
  -- step 3: the build-phase insertion
  have hfk1 : findSub sourcesKeyLit (P1 ++ bE1 ++ Q1) =
      some ((P1 ++ endBFLit ++ s2 ++ beginFRLit ++ s3 ++ endFRLit ++ s4).length +
        bE1.length) :=
    findSub_insert_before sourcesKeyLit P1 bE1 Q1 _ hKEY tabC nlC hE1h hE1l
      htE3 hnE3 c3 hf3 (by simp only [List.length_append]; omega)
  have hfk2 : findSub sourcesKeyLit (P2 ++ bE2 ++ Q2) =
      some ((P1 ++ endBFLit ++ s2 ++ beginFRLit ++ s3 ++ endFRLit ++ s4).length +
        bE1.length + bE2.length) := by
    rw [hch2] at hfk1
    exact findSub_insert_before sourcesKeyLit P2 bE2 Q2 _ hKEY tabC nlC hE2h hE2l
      htE3 hnE3 c6 hfk1 (by rw [hP2]; simp only [List.length_append]; omega)
  have hlenP3 : (P1 ++ endBFLit ++ s2 ++ beginFRLit ++ s3 ++ endFRLit ++ s4).length +
      bE1.length + bE2.length = P3.length := by
    rw [hP3, hP2]
    simp only [List.length_append]
    omega
  have hfk3 : findSub sourcesKeyLit (P3 ++ (sourcesKeyLit ++ tl)) = some P3.length := by
    rw [← hch3, hfk2, hlenP3]
  have hTrun : runLen rparenC (rparenC :: s5) = 0 := by
    simp [runLen]
  have hpt : phaseTail tl = some (M.length + (filesLit.length + R.length)) := by
    rw [htl]
    exact phaseTail_eq M R (rparenC :: s5) hMne hMb hRne hRp hRb hRl hTrun hTl
  have hps : phaseSearch (P3 ++ (sourcesKeyLit ++ tl)) =
      some (P3.length, P3.length + sourcesKeyLit.length +
        (M.length + (filesLit.length + R.length))) :=
    phaseSearch_eq P3 tl _ hfk3 hpt
  have hch4 : P3 ++ (sourcesKeyLit ++ tl) = P4 ++ (rparenC :: s5) := by
    rw [hP4, htl]
    simp only [List.append_assoc]
  have hlenP4 : P3.length + sourcesKeyLit.length +
      (M.length + (filesLit.length + R.length)) = P4.length := by
    rw [hP4]
    simp only [List.length_append]
    omega
  have hps' : phaseSearch (P4 ++ (rparenC :: s5)) = some (P3.length, P4.length) := by
    rw [← hch4, hps, hlenP4]
  have hstep3 : phaseStep bfId fn (P4 ++ (rparenC :: s5)) =
      P4 ++ bPH ++ (rparenC :: s5) :=
    phaseStep_at bfId fn P4 (rparenC :: s5) P3.length hps'
  -- the final text
  have hfinal : add_file_to_project frId bfId (P1 ++ Q1) fp fn =
      P4 ++ bPH ++ (rparenC :: s5) := by
    unfold add_file_to_project
    rw [hstep1, hch2, hstep2, hch3, hch4, hstep3]
  have hfintext : P4 ++ bPH ++ (rparenC :: s5) =
      s0 ++ beginBFLit ++ (s1 ++ bE1) ++ endBFLit ++ s2 ++ beginFRLit ++
        (s3 ++ bE2) ++ endFRLit ++ s4 ++ sourcesKeyLit ++ M ++ filesLit ++
        (R ++ bPH) ++ (rparenC :: s5) := by
    rw [hP4, hP3, hP2, hP1]
    simp only [List.append_assoc]
  constructor
  · rw [hfinal, hfintext]
  -- well-formedness of the patched shape
  have hch5 : s0 ++ beginBFLit ++ (s1 ++ bE1) ++ endBFLit ++ s2 ++ beginFRLit ++
      (s3 ++ bE2) ++ endFRLit ++ s4 ++ sourcesKeyLit ++ M ++ filesLit ++
      (R ++ bPH) ++ (rparenC :: s5) = P4 ++ bPH ++ (rparenC :: s5) := hfintext.symm
  refine ⟨?_, ?_, ?_, hMne, hMb, ?_, ?_, ?_, ?_, hTl⟩
  · -- first occurrence of the PBXBuildFile end marker
    have e1 : findSub endBFLit (P1 ++ bE1 ++ Q1) = some (P1.length + bE1.length) :=
      findSub_insert_before endBFLit P1 bE1 Q1 P1.length hEBF tabC nlC hE1h hE1l
        htE1 hnE1 c1 hf1 (le_refl _)
    rw [hch2] at e1
    have e2 : findSub endBFLit (P2 ++ bE2 ++ Q2) = some (P1.length + bE1.length) :=
      findSub_insert_after endBFLit P2 bE2 Q2 _ hEBF tabC nlC hE2h hE2l
        htE1 hnE1 c4 e1 (by rw [hP2]; simp only [List.length_append]; omega)
    rw [hch3, hch4] at e2
    have e3 : findSub endBFLit (P4 ++ bPH ++ (rparenC :: s5)) =
        some (P1.length + bE1.length) :=
      findSub_insert_after endBFLit P4 bPH (rparenC :: s5) _ hEBF nlC commaC
        hPHh hPHl hnE1 hcE1 c7 e2
        (by rw [hP4, hP3, hP2]; simp only [List.length_append]; omega)
    have hidx : P1.length + bE1.length =
        (s0 ++ beginBFLit ++ (s1 ++ bE1)).length := by
      rw [hP1]
      simp only [List.length_append]
      omega
    rw [hch5, ← hidx]
    exact e3
  · -- first occurrence of the PBXFileReference end marker
    have e1 : findSub endFRLit (P2 ++ bE2 ++ Q2) = some (P2.length + bE2.length) :=
      findSub_insert_before endFRLit P2 bE2 Q2 P2.length hEFR tabC nlC hE2h hE2l
        htE2 hnE2 c5 hf2' (le_refl _)
    rw [hch3, hch4] at e1
    have e2 : findSub endFRLit (P4 ++ bPH ++ (rparenC :: s5)) =
        some (P2.length + bE2.length) :=
      findSub_insert_after endFRLit P4 bPH (rparenC :: s5) _ hEFR nlC commaC
        hPHh hPHl hnE2 hcE2 c8 e1
        (by rw [hP4, hP3]; simp only [List.length_append]; omega)
    have hidx : P2.length + bE2.length =
        (s0 ++ beginBFLit ++ (s1 ++ bE1) ++ endBFLit ++ s2 ++ beginFRLit ++
          (s3 ++ bE2)).length := by
      rw [hP2, hP1]
      simp only [List.length_append]
      omega
    rw [hch5, ← hidx]
    exact e2
  · -- first occurrence of the build-phase key
    have e1 : findSub sourcesKeyLit (P4 ++ bPH ++ (rparenC :: s5)) =
        some P3.length := by
      rw [hch4] at hfk3
      exact findSub_insert_after sourcesKeyLit P4 bPH (rparenC :: s5) _ hKEY
        nlC commaC hPHh hPHl hnE3 hcE3 c9 hfk3
        (by rw [hP4]; simp only [List.length_append]; omega)
    have hidx : P3.length =
        (s0 ++ beginBFLit ++ (s1 ++ bE1) ++ endBFLit ++ s2 ++ beginFRLit ++
          (s3 ++ bE2) ++ endFRLit ++ s4).length := by
      rw [hP3, hP2, hP1]
      simp only [List.length_append]
      omega
    rw [hch5, ← hidx]
    exact e1
  · -- the file-list run stays nonempty
    intro hctr
    exact hRne (List.append_eq_nil.mp hctr).1
  · -- the file-list run stays `)`-free
    intro hctr
    rcases List.mem_append.mp hctr with h | h
    · exact hRp h
    · exact c11 h
  · -- the file-list run stays brace-free
    intro hctr
    rcases List.mem_append.mp hctr with h | h
    · exact hRb h
    · exact c10 h
  · -- the file-list run stays `(`-free
    intro hctr
    rcases List.mem_append.mp hctr with h | h
    · exact hRl h
    · exact c12 h

/-- Inserting the three clean blocks of one registration into a shape cannot
create an occurrence of a pattern that contains no tab, newline or comma. -/
theorem insertBlocks_inText_false (sh : ManifestShape) (bfB frB phB pat : List Char)
    (hp : pat ≠ [])
    (hbh : bfB.head? = some tabC) (hbl : bfB.getLast? = some nlC)
    (hfh : frB.head? = some tabC) (hfl : frB.getLast? = some nlC)
    (hph : phB.head? = some nlC) (hpl : phB.getLast? = some commaC)
    (ht : tabC ∉ pat) (hn : nlC ∉ pat) (hcm : commaC ∉ pat)
    (hc1 : inText pat bfB = false) (hc2 : inText pat frB = false)
    (hc3 : inText pat phB = false)
    (h : inText pat sh.text = false) :
    inText pat (sh.insertBlocks bfB frB phB).text = false := by
  obtain ⟨s0, s1, s2, s3, s4, M, R, s5⟩ := sh
  simp only [ManifestShape.text, ManifestShape.insertBlocks] at h ⊢
  have step1 : inText pat ((s0 ++ beginBFLit ++ s1) ++ bfB ++
      (endBFLit ++ s2 ++ beginFRLit ++ s3 ++ endFRLit ++ s4 ++ sourcesKeyLit ++ M ++
        filesLit ++ R ++ (rparenC :: s5))) = false :=
    inText_insert_false pat _ bfB _ hp tabC nlC hbh hbl ht hn hc1
      (by simpa only [List.append_assoc] using h)
  have step2 : inText pat ((s0 ++ beginBFLit ++ s1 ++ bfB ++ endBFLit ++ s2 ++
      beginFRLit ++ s3) ++ frB ++ (endFRLit ++ s4 ++ sourcesKeyLit ++ M ++
        filesLit ++ R ++ (rparenC :: s5))) = false :=
    inText_insert_false pat _ frB _ hp tabC nlC hfh hfl ht hn hc2
      (by simpa only [List.append_assoc] using step1)
  have step3 : inText pat ((s0 ++ beginBFLit ++ s1 ++ bfB ++ endBFLit ++ s2 ++
      beginFRLit ++ s3 ++ frB ++ endFRLit ++ s4 ++ sourcesKeyLit ++ M ++ filesLit ++
      R) ++ phB ++ (rparenC :: s5)) = false :=
    inText_insert_false pat _ phB _ hp nlC commaC hph hpl hn hcm hc3
      (by simpa only [List.append_assoc] using step2)
  simpa only [List.append_assoc] using step3

set_option maxHeartbeats 1000000 in
/-- C2: for a well-formed manifest in which none of the three target file names
occurs, with all three source files present on disk and the minted identifier
blocks clean, one run of the patcher writes back the manifest with exactly
three new build-file entries, three new file-reference entries and three new
build-phase references appended at the section seams, every character of the
original manifest preserved in place; no warning and no error are emitted. -/
theorem C2_patch_three_files (sh : ManifestShape) (onDisk : List Char → Bool)
    (ids : Nat → List Char × List Char)
    (hOk : sh.Ok)
    (hd : ∀ e ∈ test_files, onDisk e.1 = true)
    (hN1 : inText ("DungeonTests.swift".data) sh.text = false)
    (hN2 : inText ("BossEncounterTests.swift".data) sh.text = false)
    (hN3 : inText ("SeasonTests.swift".data) sh.text = false)
    (hcl1 : blocksClean (ids 0).1 (ids 0).2 ("DungeonTests.swift".data))
    (hcl2 : blocksClean (ids 1).1 (ids 1).2 ("BossEncounterTests.swift".data))
    (hcl3 : blocksClean (ids 2).1 (ids 2).2 ("SeasonTests.swift".data))
    (hx21 : blocksFree ("BossEncounterTests.swift".data) (ids 0).1 (ids 0).2
      ("DungeonTests.swift".data))
    (hx31 : blocksFree ("SeasonTests.swift".data) (ids 0).1 (ids 0).2
      ("DungeonTests.swift".data))
    (hx32 : blocksFree ("SeasonTests.swift".data) (ids 1).1 (ids 1).2
      ("BossEncounterTests.swift".data)) :
    main (some sh.text) onDisk ids =
      { written := some (sh.s0 ++ beginBFLit ++
          (sh.s1 ++ bfBlock (ids 0).2 (ids 0).1 ("DungeonTests.swift".data)
            ++ bfBlock (ids 1).2 (ids 1).1 ("BossEncounterTests.swift".data)
            ++ bfBlock (ids 2).2 (ids 2).1 ("SeasonTests.swift".data)) ++
          endBFLit ++ sh.s2 ++ beginFRLit ++
          (sh.s3 ++ frBlock (ids 0).1 ("DungeonTests.swift".data)
            ++ frBlock (ids 1).1 ("BossEncounterTests.swift".data)
            ++ frBlock (ids 2).1 ("SeasonTests.swift".data)) ++
          endFRLit ++ sh.s4 ++ sourcesKeyLit ++ sh.M ++ filesLit ++
          (sh.R ++ phBlock (ids 0).2 ("DungeonTests.swift".data)
            ++ phBlock (ids 1).2 ("BossEncounterTests.swift".data)
            ++ phBlock (ids 2).2 ("SeasonTests.swift".data)) ++
          (rparenC :: sh.s5)),
        warned := [], errored := false } := by
  obtain ⟨hx21a, hx21b, hx21c⟩ := hx21
  obtain ⟨hx31a, hx31b, hx31c⟩ := hx31
  obtain ⟨hx32a, hx32b, hx32c⟩ := hx32
  have hdp1 : onDisk ("DungeonKitTests/ModelTests/DungeonTests.swift".data) = true :=
    hd _ (List.Mem.head _)
  have hdp2 : onDisk ("DungeonKitTests/ModelTests/BossEncounterTests.swift".data) =
      true := hd _ (List.Mem.tail _ (List.Mem.head _))
  have hdp3 : onDisk ("DungeonKitTests/ModelTests/SeasonTests.swift".data) = true :=
    hd _ (List.Mem.tail _ (List.Mem.tail _ (List.Mem.head _)))
  obtain ⟨hadd1, hOk1⟩ := add_file_shape sh (ids 0).1 (ids 0).2
    ("DungeonKitTests/ModelTests/DungeonTests.swift".data)
    ("DungeonTests.swift".data) hOk hcl1
  have hfn2 : inText ("BossEncounterTests.swift".data)
      (sh.insertBlocks (bfBlock (ids 0).2 (ids 0).1 ("DungeonTests.swift".data))
        (frBlock (ids 0).1 ("DungeonTests.swift".data))
        (phBlock (ids 0).2 ("DungeonTests.swift".data))).text = false :=
    insertBlocks_inText_false sh _ _ _ _ (by decide)
      (bfBlock_head _ _ _) (bfBlock_last _ _ _) (frBlock_head _ _) (frBlock_last _ _)
      (phBlock_head _ _) (phBlock_last _ _) (by decide) (by decide) (by decide)
      hx21a hx21b hx21c hN2
  obtain ⟨hadd2, hOk2⟩ := add_file_shape
    (sh.insertBlocks (bfBlock (ids 0).2 (ids 0).1 ("DungeonTests.swift".data))
      (frBlock (ids 0).1 ("DungeonTests.swift".data))
      (phBlock (ids 0).2 ("DungeonTests.swift".data)))
    (ids 1).1 (ids 1).2
    ("DungeonKitTests/ModelTests/BossEncounterTests.swift".data)
    ("BossEncounterTests.swift".data) hOk1 hcl2
  have hfn3a : inText ("SeasonTests.swift".data)
      (sh.insertBlocks (bfBlock (ids 0).2 (ids 0).1 ("DungeonTests.swift".data))
        (frBlock (ids 0).1 ("DungeonTests.swift".data))
        (phBlock (ids 0).2 ("DungeonTests.swift".data))).text = false :=
    insertBlocks_inText_false sh _ _ _ _ (by decide)
      (bfBlock_head _ _ _) (bfBlock_last _ _ _) (frBlock_head _ _) (frBlock_last _ _)
      (phBlock_head _ _) (phBlock_last _ _) (by decide) (by decide) (by decide)
      hx31a hx31b hx31c hN3
  have hfn3 : inText ("SeasonTests.swift".data)
      ((sh.insertBlocks (bfBlock (ids 0).2 (ids 0).1 ("DungeonTests.swift".data))
        (frBlock (ids 0).1 ("DungeonTests.swift".data))
        (phBlock (ids 0).2 ("DungeonTests.swift".data))).insertBlocks
          (bfBlock (ids 1).2 (ids 1).1 ("BossEncounterTests.swift".data))
          (frBlock (ids 1).1 ("BossEncounterTests.swift".data))
          (phBlock (ids 1).2 ("BossEncounterTests.swift".data))).text = false :=
    insertBlocks_inText_false _ _ _ _ _ (by decide)
      (bfBlock_head _ _ _) (bfBlock_last _ _ _) (frBlock_head _ _) (frBlock_last _ _)
      (phBlock_head _ _) (phBlock_last _ _) (by decide) (by decide) (by decide)
      hx32a hx32b hx32c hfn3a
  obtain ⟨hadd3, hOk3⟩ := add_file_shape
    ((sh.insertBlocks (bfBlock (ids 0).2 (ids 0).1 ("DungeonTests.swift".data))
      (frBlock (ids 0).1 ("DungeonTests.swift".data))
      (phBlock (ids 0).2 ("DungeonTests.swift".data))).insertBlocks
        (bfBlock (ids 1).2 (ids 1).1 ("BossEncounterTests.swift".data))
        (frBlock (ids 1).1 ("BossEncounterTests.swift".data))
        (phBlock (ids 1).2 ("BossEncounterTests.swift".data)))
    (ids 2).1 (ids 2).2
    ("DungeonKitTests/ModelTests/SeasonTests.swift".data)
    ("SeasonTests.swift".data) hOk2 hcl3
  unfold main
  simp only [mainLoop, test_files, hdp1, hdp2, hdp3, if_true, hN1, hadd1, hfn2,
    hadd2, hfn3, hadd3, Bool.false_eq_true, if_false]
  simp only [ManifestShape.insertBlocks, ManifestShape.text]

/-- C3: on a manifest without the `PBXFileReference` section delimiters, the
file-reference step of `add_file_to_project` leaves the text unchanged (no
file-reference entry is inserted), the build-file and build-phase steps still
run independently, and every character of the input is preserved in order. -/
theorem C3_no_fileref_section (frId bfId content fp fn : List Char)
    (hFR : hasSection beginFRLit endFRLit content = false)
    (hcb : inText beginFRLit (bfBlock bfId frId fn) = false)
    (hce : inText endFRLit (bfBlock bfId frId fn) = false) :
    frStep frId fn (bfStep bfId frId fn content) = bfStep bfId frId fn content ∧
    add_file_to_project frId bfId content fp fn =
      phaseStep bfId fn (bfStep bfId frId fn content) ∧
    List.Sublist content (add_file_to_project frId bfId content fp fn) := by
  have hFR' : hasSection beginFRLit endFRLit (bfStep bfId frId fn content) = false := by
    unfold bfStep
    split
    · unfold insertAt
      have h0 : hasSection beginFRLit endFRLit
          (content.take (bfInsertPos content) ++ content.drop (bfInsertPos content)) =
            false := by
        rw [List.take_append_drop]
        exact hFR
      exact hasSection_insert_false beginFRLit endFRLit _ _ _
        (by decide) (by decide) tabC nlC (bfBlock_head bfId frId fn)
        (bfBlock_last bfId frId fn) (by decide) (by decide) (by decide) (by decide)
        hcb hce h0
    · exact hFR
  have hfr : frStep frId fn (bfStep bfId frId fn content) =
      bfStep bfId frId fn content := by
    unfold frStep
    rw [if_neg (by simp [hFR'])]
  refine ⟨hfr, ?_, add_file_sublist frId bfId content fp fn⟩
  unfold add_file_to_project
  rw [hfr]

/-- C4: if all three target file names already occur in the manifest, a run of
the patcher writes back exactly the text it read, whatever is on disk. -/
theorem C4_rerun_noop (m : List Char) (onDisk : List Char → Bool)
    (ids : Nat → List Char × List Char)
    (h1 : inText ("DungeonTests.swift".data) m = true)
    (h2 : inText ("BossEncounterTests.swift".data) m = true)
    (h3 : inText ("SeasonTests.swift".data) m = true) :
    (main (some m) onDisk ids).written = some m := by
  have hall : ∀ e ∈ test_files, inText e.2 m = true := by
    intro e he
    cases he with
    | head => exact h1
    | tail _ he2 =>
      cases he2 with
      | head => exact h2
      | tail _ he3 =>
        cases he3 with
        | head => exact h3
        | tail _ he4 => cases he4
  show some (mainLoop onDisk ids test_files m 0).1 = some m
  rw [mainLoop_all_present onDisk ids test_files m 0 hall]

/-- C7: entries whose source file is missing on disk are warned about and make
no edit, and the content written is exactly the result of processing the
on-disk entries alone — each entry is handled independently. -/
theorem C7_missing_sources_skipped (m : List Char) (onDisk : List Char → Bool)
    (ids : Nat → List Char × List Char) :
    (main (some m) onDisk ids).warned =
      (test_files.filter (fun e => !(onDisk e.1))).map (fun e => e.1) ∧
    (main (some m) onDisk ids).written =
      some (mainLoop onDisk ids (test_files.filter (fun e => onDisk e.1)) m 0).1 := by
  have h := mainLoop_filter onDisk ids test_files m 0
  constructor
  · show (mainLoop onDisk ids test_files m 0).2 = _
    rw [h]
  · show some (mainLoop onDisk ids test_files m 0).1 = _
    rw [h]

/-- C8: when the manifest file is missing, `main` prints the error and returns
early: nothing is read, edited, warned about or written. -/
theorem C8_manifest_missing (onDisk : List Char → Bool)
    (ids : Nat → List Char × List Char) :
    main none onDisk ids = { written := none, warned := [], errored := true } := rfl

/-- C9: `add_file_to_project` only ever inserts text: every input manifest is a
sublist (all characters, in order) of the output, so the output is never
shorter. -/
theorem C9_insertions_only (frId bfId content fp fn : List Char) :
    List.Sublist content (add_file_to_project frId bfId content fp fn) ∧
    content.length ≤ (add_file_to_project frId bfId content fp fn).length := by
  refine ⟨add_file_sublist frId bfId content fp fn, ?_⟩
  exact (add_file_sublist frId bfId content fp fn).length_le

theorem lookup_dictInsert (d : Dict) (kk k : String) (v : DungeonRecord) :
    lookupDict (dictInsert d kk v) k =
      if kk == k then some v else lookupDict d k := by
  induction d with
  | nil => rfl
  | cons e rest ih =>
    obtain ⟨k', v'⟩ := e
    by_cases h1 : k' = kk
    · subst h1
      simp only [dictInsert, beq_self_eq_true, if_true]
      by_cases h2 : k' = k
      · subst h2
        simp [lookupDict]
      · have hb : (k' == k) = false := by simpa using h2
        simp [lookupDict, hb]
    · have hb1 : (k' == kk) = false := by simpa using h1
      simp only [dictInsert, hb1, Bool.false_eq_true, if_false]
      by_cases h2 : k' = k
      · subst h2
        have hb2 : (kk == k') = false := by simpa using fun he => h1 he.symm
        simp [lookupDict, hb2]
      · have hb2 : (k' == k) = false := by simpa using h2
        simp [lookupDict, hb2, ih]

theorem getLast?_cons_match (a : Anchor) (l : List Anchor) :
    (a :: l).getLast? =
      match l.getLast? with
      | some b => some b
      | none => some a := by
  cases l with
  | nil => rfl
  | cons b bs =>
    have h1 : (a :: b :: bs).getLast? = (b :: bs).getLast? := rfl
    rw [h1]
    cases hcase : (b :: bs).getLast? with
    | some x => rfl
    | none =>
      exact absurd (List.getLast?_eq_none_iff.mp hcase) (by simp)

theorem lookup_recordAnchors (u : String) (l : List Anchor) (d : Dict) (k : String) :
    lookupDict (recordAnchors u l d) k =
      match (l.filter (fun a => qualifiesText a.text && a.text == k)).getLast? with
      | some a => some { url := a.href, source := u }
      | none => lookupDict d k := by
  induction l generalizing d with
  | nil => rfl
  | cons a rest ih =>
    have hstep : recordAnchors u (a :: rest) d =
        recordAnchors u rest (recordStep u d a) := rfl
    rw [hstep, ih]
    by_cases hq : qualifiesText a.text
    · by_cases hk : a.text = k
      · have hkb : (a.text == k) = true := by simpa using hk
        have hfil : ((a :: rest).filter (fun x => qualifiesText x.text && x.text == k)) =
            a :: rest.filter (fun x => qualifiesText x.text && x.text == k) := by
          simp [List.filter_cons, hq, hkb]
        rw [hfil, getLast?_cons_match a _]
        cases hcase : (rest.filter (fun x => qualifiesText x.text && x.text == k)).getLast? with
        | some b => rfl
        | none =>
          have hrs : recordStep u d a = dictInsert d a.text { url := a.href, source := u } := by
            simp [recordStep, hq]
          rw [hrs, lookup_dictInsert]
          have hb : (a.text == k) = true := by simpa using hk
          simp [hb]
      · have hkb : (a.text == k) = false := by simpa using hk
        have hfil : ((a :: rest).filter (fun x => qualifiesText x.text && x.text == k)) =
            rest.filter (fun x => qualifiesText x.text && x.text == k) := by
          simp [List.filter_cons, hkb]
        rw [hfil]
        cases hcase : (rest.filter (fun x => qualifiesText x.text && x.text == k)).getLast? with
        | some b => rfl
        | none =>
          have hrs : recordStep u d a = dictInsert d a.text { url := a.href, source := u } := by
            simp [recordStep, hq]
          rw [hrs, lookup_dictInsert]
          simp [hkb]
    · have hqb : qualifiesText a.text = false := by simpa using hq
      have hfil : ((a :: rest).filter (fun x => qualifiesText x.text && x.text == k)) =
          rest.filter (fun x => qualifiesText x.text && x.text == k) := by
        simp [List.filter_cons, hqb]
      rw [hfil]
      have hrs : recordStep u d a = d := by simp [recordStep, hqb]
      rw [hrs]

theorem mem_dictInsert (d : Dict) (kk k : String) (v v' : DungeonRecord)
    (h : (k, v') ∈ dictInsert d kk v) : (k, v') ∈ d ∨ (k = kk ∧ v' = v) := by
  induction d with
  | nil =>
    simp only [dictInsert, List.mem_singleton] at h
    obtain ⟨rfl, rfl⟩ := Prod.mk.injEq .. ▸ h
    exact Or.inr ⟨rfl, rfl⟩
  | cons e rest ih =>
    obtain ⟨k', w⟩ := e
    by_cases h1 : k' = kk
    · subst h1
      simp only [dictInsert, beq_self_eq_true, if_true, List.mem_cons] at h
      rcases h with h | h
      · obtain ⟨rfl, rfl⟩ := Prod.mk.injEq .. ▸ h
        exact Or.inr ⟨rfl, rfl⟩
      · exact Or.inl (List.mem_cons_of_mem _ h)
    · have hb1 : (k' == kk) = false := by simpa using h1
      simp only [dictInsert, hb1, Bool.false_eq_true, if_false, List.mem_cons] at h
      rcases h with h | h
      · exact Or.inl (List.mem_cons.mpr (Or.inl h))
      · rcases ih h with h2 | h2
        · exact Or.inl (List.mem_cons_of_mem _ h2)
        · exact Or.inr h2

theorem mem_recordAnchors (u : String) (l : List Anchor) (d : Dict)
    (k : String) (v : DungeonRecord) (h : (k, v) ∈ recordAnchors u l d) :
    (k, v) ∈ d ∨ (qualifiesText k = true ∧ v.source = u) := by
  induction l generalizing d with
  | nil => exact Or.inl h
  | cons a rest ih =>
    have hstep : recordAnchors u (a :: rest) d =
        recordAnchors u rest (recordStep u d a) := rfl
    rw [hstep] at h
    rcases ih (recordStep u d a) h with h2 | h2
    · by_cases hq : qualifiesText a.text
      · have hrs : recordStep u d a =
            dictInsert d a.text { url := a.href, source := u } := by
          simp [recordStep, hq]
        rw [hrs] at h2
        rcases mem_dictInsert d a.text k _ v h2 with h3 | ⟨rfl, rfl⟩
        · exact Or.inl h3
        · exact Or.inr ⟨hq, rfl⟩
      · have hqb : qualifiesText a.text = false := by simpa using hq
        have hrs : recordStep u d a = d := by simp [recordStep, hqb]
        rw [hrs] at h2
        exact Or.inl h2
    · exact Or.inr h2

theorem recordAnchors_no_qual (u : String) (l : List Anchor) (d : Dict)
    (h : ∀ a ∈ l, qualifiesText a.text = false) : recordAnchors u l d = d := by
  induction l generalizing d with
  | nil => rfl
  | cons a rest ih =>
    have hstep : recordAnchors u (a :: rest) d =
        recordAnchors u rest (recordStep u d a) := rfl
    rw [hstep]
    have hrs : recordStep u d a = d := by
      simp [recordStep, h a (by simp)]
    rw [hrs]
    exact ih d (fun a' ha' => h a' (by simp [ha']))

theorem scrapeGo_data_nil (fetch : String → FetchResult) (l : List String) (d : Dict)
    (h : ∀ u ∈ l, yieldCount (fetch u) = 0) : (scrapeGo fetch l d).1 = d := by
  induction l generalizing d with
  | nil => rfl
  | cons u rest ih =>
    have hu := h u (by simp)
    cases hf : fetch u with
    | fetchError =>
      simp only [scrapeGo, hf]
      exact ih d (fun u' hu' => h u' (by simp [hu']))
    | page content anchors =>
      rw [hf] at hu
      by_cases hm : markersPresent content
      · have hzero : ((pageSelect anchors).filter
            (fun a => qualifiesText a.text)).length = 0 := by
          simpa [yieldCount, hm] using hu
        have hnil : ∀ a ∈ pageSelect anchors, qualifiesText a.text = false := by
          intro a ha
          have := List.length_eq_zero.mp hzero
          by_contra hc
          have hmem : a ∈ (pageSelect anchors).filter (fun a => qualifiesText a.text) :=
            List.mem_filter.mpr ⟨ha, by simpa using hc⟩
          rw [this] at hmem
          cases hmem
        simp only [scrapeGo, hf, processUrl, hm, if_true]
        exact recordAnchors_no_qual u (pageSelect anchors) d hnil
      · have hm' : markersPresent content = false := by simpa using hm
        simp only [scrapeGo, hf, processUrl, hm', Bool.false_eq_true, if_false]
        exact ih d (fun u' hu' => h u' (by simp [hu']))

theorem scrapeGo_all_error (fetch : String → FetchResult) (l : List String) (d : Dict)
    (h : ∀ u ∈ l, fetch u = .fetchError) : scrapeGo fetch l d = (d, l) := by
  induction l generalizing d with
  | nil => rfl
  | cons u rest ih =>
    simp only [scrapeGo, h u (by simp)]
    rw [ih d (fun u' hu' => h u' (by simp [hu']))]

theorem mem_scrapeGo_data (fetch : String → FetchResult) (l : List String) (d : Dict)
    (k : String) (v : DungeonRecord) (h : (k, v) ∈ (scrapeGo fetch l d).1) :
    (k, v) ∈ d ∨ (qualifiesText k = true ∧ v.source ∈ l) := by
  induction l generalizing d with
  | nil => exact Or.inl h
  | cons u rest ih =>
    cases hf : fetch u with
    | fetchError =>
      rw [show (scrapeGo fetch (u :: rest) d).1 = (scrapeGo fetch rest d).1 from by
        simp [scrapeGo, hf]] at h
      rcases ih d h with h2 | ⟨hq, hs⟩
      · exact Or.inl h2
      · exact Or.inr ⟨hq, by simp [hs]⟩
    | page content anchors =>
      by_cases hm : markersPresent content
      · rw [show (scrapeGo fetch (u :: rest) d).1 =
            recordAnchors u (pageSelect anchors) d from by
          simp [scrapeGo, hf, processUrl, hm]] at h
        rcases mem_recordAnchors u (pageSelect anchors) d k v h with h2 | ⟨hq, hs⟩
        · exact Or.inl h2
        · exact Or.inr ⟨hq, by simp [hs]⟩
      · have hm' : markersPresent content = false := by simpa using hm
        rw [show (scrapeGo fetch (u :: rest) d).1 = (scrapeGo fetch rest d).1 from by
          simp [scrapeGo, hf, processUrl, hm']] at h
        rcases ih d h with h2 | ⟨hq, hs⟩
        · exact Or.inl h2
        · exact Or.inr ⟨hq, by simp [hs]⟩

/-- C1, as stated, is false of the code: the loop breaks as soon as a page
contains a season marker, even when zero records were found there.  On
`fetchC1` the first page has the marker and no qualifying anchor, so the
scraper stops after the first URL with an empty mapping although the second
URL would have yielded a record. -/
theorem C1_counterexample : ¬ C1prop := by
  intro h
  have h2 := (h fetchC1).2 (by decide)
  have h3 : scrapeTried fetchC1 = [URL1] := by decide
  rw [h3] at h2
  exact absurd h2 (by decide)

/-- C1 (amended): the scraper stops trying further URLs exactly when the
current page was fetched without error and contains a season marker,
regardless of the number of records found.  In particular, if the first URL
errors or its page lacks the markers and the second URL's page carries a
marker, the third URL is never navigated to and every returned record stems
from the second URL. -/
theorem C1_stop_on_marker (fetch : String → FetchResult)
    (h1 : stopper (fetch URL1) = false) (h2 : stopper (fetch URL2) = true) :
    scrapeTried fetch = [URL1, URL2] ∧
    ∀ p ∈ scrapeData fetch, p.2.source = URL2 := by
  cases hf2 : fetch URL2 with
  | fetchError =>
    rw [hf2] at h2
    simp [stopper] at h2
  | page c2 as2 =>
    have hm2 : markersPresent c2 = true := by
      rw [hf2] at h2
      simpa [stopper] using h2
    have hmain : scrape_wow_content fetch =
        (recordAnchors URL2 (pageSelect as2) [], [URL1, URL2]) := by
      cases hf1 : fetch URL1 with
      | fetchError =>
        simp [scrape_wow_content, sources, scrapeGo, hf1, hf2, processUrl, hm2]
      | page c1 as1 =>
        have hm1 : markersPresent c1 = false := by
          rw [hf1] at h1
          simpa [stopper] using h1
        simp [scrape_wow_content, sources, scrapeGo, hf1, hf2, processUrl, hm1, hm2]
    constructor
    · show (scrape_wow_content fetch).2 = _
      rw [hmain]
    · intro p hp
      have hp' : (p.1, p.2) ∈ recordAnchors URL2 (pageSelect as2) [] := by
        have hd : scrapeData fetch = recordAnchors URL2 (pageSelect as2) [] := by
          show (scrape_wow_content fetch).1 = _
          rw [hmain]
        rw [hd] at hp
        simpa using hp
      rcases mem_recordAnchors URL2 _ [] p.1 p.2 hp' with hc | hc
      · cases hc
      · exact hc.2

/-- Witness for the amended C1 at a concrete fetch oracle. -/
theorem C1_stop_on_marker_witness :
    stopper (fetchW1 URL1) = false ∧ stopper (fetchW1 URL2) = true ∧
    (scrapeTried fetchW1 = [URL1, URL2] ∧
      ∀ p ∈ scrapeData fetchW1, p.2.source = URL2) :=
  ⟨by decide, by decide, C1_stop_on_marker fetchW1 (by decide) (by decide)⟩

/-- C5: on a marker-carrying page with at least five `href`-matching anchors,
the recorded mapping is exactly described by the first five matches: a name is
mapped to the record of the last of the first five `href`-matching anchors
whose text qualifies and equals that name (later entries overwrite earlier
ones), and anchors beyond the fifth match never influence the result. -/
theorem C5_first_five_filtered (url content : String) (anchors : List Anchor)
    (hm : markersPresent content = true)
    (h5 : 5 ≤ (anchors.filter hrefMatch).length) :
    (∀ k, lookupDict (processUrl url content anchors []).1 k =
      (((anchors.filter hrefMatch).take 5).filter
        (fun a => qualifiesText a.text && a.text == k)).getLast?.map
          (fun a => { url := a.href, source := url })) ∧
    ∀ extra, (processUrl url content (anchors ++ extra) []).1 =
      (processUrl url content anchors []).1 := by
  constructor
  · intro k
    have hpu : (processUrl url content anchors []).1 =
        recordAnchors url (pageSelect anchors) [] := by
      simp [processUrl, hm]
    rw [hpu, lookup_recordAnchors]
    simp only [pageSelect]
    cases hcase : (((anchors.filter hrefMatch).take 5).filter
        (fun a => qualifiesText a.text && a.text == k)).getLast? with
    | some a => simp [hcase]
    | none => simp [hcase, lookupDict]
  · intro extra
    have hsel : pageSelect (anchors ++ extra) = pageSelect anchors := by
      unfold pageSelect
      rw [List.filter_append, List.take_append_of_le_length h5]
    simp [processUrl, hm, hsel]

/-- Witness for C5 at a concrete page with six `href`-matching anchors. -/
theorem C5_first_five_filtered_witness :
    markersPresent ("Season 3") = true ∧
    5 ≤ (anchorsW.filter hrefMatch).length ∧
    ((∀ k, lookupDict (processUrl URL1 ("Season 3") anchorsW []).1 k =
      (((anchorsW.filter hrefMatch).take 5).filter
        (fun a => qualifiesText a.text && a.text == k)).getLast?.map
          (fun a => { url := a.href, source := URL1 })) ∧
    ∀ extra, (processUrl URL1 ("Season 3") (anchorsW ++ extra) []).1 =
      (processUrl URL1 ("Season 3") anchorsW []).1) :=
  ⟨by decide, by decide,
    C5_first_five_filtered URL1 ("Season 3") anchorsW (by decide) (by decide)⟩

/-- C6: if every candidate URL errors or yields zero qualifying records, the
scraper returns the empty mapping (each per-URL error is caught rather than
raised); if every URL errors, the loop moreover advances through all three
URLs. -/
theorem C6_exhaustion_empty (fetch : String → FetchResult)
    (h : ∀ u ∈ sources, yieldCount (fetch u) = 0) :
    scrapeData fetch = [] ∧
    ((∀ u ∈ sources, fetch u = .fetchError) → scrapeTried fetch = sources) := by
  constructor
  · exact scrapeGo_data_nil fetch sources [] h
  · intro he
    show (scrapeGo fetch sources []).2 = sources
    rw [scrapeGo_all_error fetch sources [] he]

/-- Witness for C6 at the all-errors fetch oracle. -/
theorem C6_exhaustion_empty_witness :
    (∀ u ∈ sources, yieldCount (fetchAllErr u) = 0) ∧
    (scrapeData fetchAllErr = [] ∧
      ((∀ u ∈ sources, fetchAllErr u = .fetchError) →
        scrapeTried fetchAllErr = sources)) :=
  ⟨by decide, C6_exhaustion_empty fetchAllErr (by decide)⟩

/-- C10: every entry of the returned mapping has a key containing one of the
six fixed name fragments and a source equal to one of the three candidate
URLs — for every fetch oracle. -/
theorem C10_record_invariant (fetch : String → FetchResult) (k : String)
    (v : DungeonRecord) (h : (k, v) ∈ scrapeData fetch) :
    qualifiesText k = true ∧ v.source ∈ sources := by
  rcases mem_scrapeGo_data fetch sources [] k v h with h2 | h2
  · cases h2
  · exact h2

/-- Witness for C10 at a concrete fetch oracle producing one record. -/
theorem C10_record_invariant_witness :
    (("Priory of the Sacred Flame",
        ({ url := "/wow/dungeon/priory", source := URL2 } : DungeonRecord)) ∈
      scrapeData fetchW1) ∧
    (qualifiesText ("Priory of the Sacred Flame") = true ∧
      ({ url := "/wow/dungeon/priory", source := URL2 } : DungeonRecord).source ∈
        sources) :=
  ⟨by decide, C10_record_invariant fetchW1 _ _ (by decide)⟩

set_option maxRecDepth 40000 in
/-- Witness for C2 at a concrete miniature manifest and identifier pairs. -/
theorem C2_patch_three_files_witness :
    main (some shW.text) (fun _ => true) idsW =
      { written := some (shW.s0 ++ beginBFLit ++
          (shW.s1 ++ bfBlock (idsW 0).2 (idsW 0).1 ("DungeonTests.swift".data)
            ++ bfBlock (idsW 1).2 (idsW 1).1 ("BossEncounterTests.swift".data)
            ++ bfBlock (idsW 2).2 (idsW 2).1 ("SeasonTests.swift".data)) ++
          endBFLit ++ shW.s2 ++ beginFRLit ++
          (shW.s3 ++ frBlock (idsW 0).1 ("DungeonTests.swift".data)
            ++ frBlock (idsW 1).1 ("BossEncounterTests.swift".data)
            ++ frBlock (idsW 2).1 ("SeasonTests.swift".data)) ++
          endFRLit ++ shW.s4 ++ sourcesKeyLit ++ shW.M ++ filesLit ++
          (shW.R ++ phBlock (idsW 0).2 ("DungeonTests.swift".data)
            ++ phBlock (idsW 1).2 ("BossEncounterTests.swift".data)
            ++ phBlock (idsW 2).2 ("SeasonTests.swift".data)) ++
          (rparenC :: shW.s5)),
        warned := [], errored := false } :=
  C2_patch_three_files shW (fun _ => true) idsW (by decide) (by decide) (by decide)
    (by decide) (by decide) (by decide) (by decide) (by decide) (by decide)
    (by decide) (by decide)

/-- Witness for C3 at a manifest lacking the file-reference section. -/
theorem C3_no_fileref_section_witness :
    hasSection beginFRLit endFRLit mC3 = false ∧
    (frStep ("F1".data) ("N1.swift".data)
        (bfStep ("B1".data) ("F1".data) ("N1.swift".data) mC3) =
      bfStep ("B1".data) ("F1".data) ("N1.swift".data) mC3 ∧
    add_file_to_project ("F1".data) ("B1".data) mC3 ("p".data) ("N1.swift".data) =
      phaseStep ("B1".data) ("N1.swift".data)
        (bfStep ("B1".data) ("F1".data) ("N1.swift".data) mC3) ∧
    List.Sublist mC3
      (add_file_to_project ("F1".data) ("B1".data) mC3 ("p".data) ("N1.swift".data))) :=
  ⟨by decide,
    C3_no_fileref_section ("F1".data) ("B1".data) mC3 ("p".data) ("N1.swift".data)
      (by decide) (by decide) (by decide)⟩

/-- Witness for C4 at a manifest already containing all three names. -/
theorem C4_rerun_noop_witness :
    inText ("DungeonTests.swift".data) mC4 = true ∧
    inText ("BossEncounterTests.swift".data) mC4 = true ∧
    inText ("SeasonTests.swift".data) mC4 = true ∧
    (main (some mC4) (fun _ => false) idsW).written = some mC4 :=
  ⟨by decide, by decide, by decide,
    C4_rerun_noop mC4 (fun _ => false) idsW (by decide) (by decide) (by decide)⟩

end Healer
